import Mathlib

/-!
Verification development for the oatyp OpenAPI-to-TypeScript generator.

The definitions below are a shallow embedding of the TypeScript sources:

* `CodeFormatting` (src/code-formatting.ts): identifier sanitation
  (`camelCase`, `pascalCase`, `isSafeIdentifier`) and reference resolution
  (`retrieveRef`).
* `CodeGen` (src/code-gen.ts): the recursive schema-to-type mapper
  (`generateTypeNodeForSchema`, `generatePropertySignature`,
  `generateTypeLiteral`).
* the operation analyzer (project-analyzer.ts): `analyzePathOperations`,
  `analyzeOperation`, `analyzeOperationTag`, `trackReferences`, `getSchemas`.
* the api generator (api.ts): the parts of `populateOperationMethod` that
  decide which method parameters are emitted.
* the type-library generator (src/types.ts): `generateTypes`.

JavaScript semantics are modelled explicitly where they matter:

* runtime type errors (for example evaluating `'x' in undefined`) and stack
  exhaustion are modelled with `Except JsErr`; recursion whose depth is
  bounded only by the call stack takes an explicit fuel argument;
* `Object.entries` / `Object.keys` enumeration order sorts array-index-like
  keys (canonical numeric strings below 2^32-1) in ascending numeric order
  before all other keys, which keep insertion order;
* truthiness of optional strings: `undefined` and the empty string are falsy;
* `String.prototype.toUpperCase` / `toLowerCase` are modelled on the ASCII
  range (the identifiers and enum values the claims are about are ASCII),
  which coincides with `Char.toUpper` / `Char.toLower`;
* the external `safe-identifier` package (`makeNameSafeForIdentifier`) is an
  external collaborator and is threaded through as an opaque function
  parameter `safeIdent`.
-/

namespace Oatyp

/-- JavaScript runtime failures that the generator can raise: `typeError`
models a thrown `TypeError` (such as evaluating `'$ref' in undefined`),
`stackOverflow` models exhaustion of the call stack by unbounded recursion. -/
inductive JsErr where
  | typeError
  | stackOverflow
deriving DecidableEq, Repr

/-- Truthiness of a JavaScript value modelled as `Option String`: both
`undefined` (`none`) and the empty string are falsy. -/
def jsTruthyS : Option String → Bool
  | none => false
  | some s => s ≠ ""

/-- Property read `obj[k]` on a JavaScript object modelled as an association
list in insertion order: the value of the first (unique) matching key. -/
def jsGet (l : List (String × α)) (k : String) : Option α :=
  (l.find? (fun p => p.1 == k)).map (·.2)

/-- Property write `obj[k] = v`: overwrite in place if the key exists,
otherwise append (JavaScript objects and `Map`s keep the original position
of an overwritten key). -/
def jsSet (l : List (String × α)) (k : String) (v : α) : List (String × α) :=
  if (l.find? (fun p => p.1 == k)).isSome then
    l.map (fun p => if p.1 == k then (k, v) else p)
  else l ++ [(k, v)]

/-- Interpretation of a decimal digit character. -/
def digitVal (c : Char) : Nat := c.toNat - 48

/-- Numeric value of a string of decimal digits. -/
def decimalVal (s : String) : Nat :=
  s.data.foldl (fun n c => n * 10 + digitVal c) 0

/-- Whether a string is a canonical array-index key in the sense of the
ECMAScript specification: a string of decimal digits with no leading zero
(except the string "0" itself) whose value is below 2^32 - 1. Such keys are
enumerated first, in ascending numeric order, by `Object.entries`. -/
def isArrayIndexKey (s : String) : Bool :=
  s.data ≠ [] && s.data.all Char.isDigit &&
  (s == "0" || s.data.head? ≠ some '0') &&
  decimalVal s < 4294967295

/-- Stable insertion of an entry into a list sorted ascending by the numeric
value of the key (new entry goes after existing entries with equal value). -/
def insertByVal (e : String × α) : List (String × α) → List (String × α)
  | [] => [e]
  | x :: xs =>
    if decimalVal e.1 < decimalVal x.1 then e :: x :: xs
    else x :: insertByVal e xs

/-- Stable ascending sort by numeric key value. -/
def sortByVal : List (String × α) → List (String × α)
  | [] => []
  | x :: xs => insertByVal x (sortByVal xs)

/-- Model of the enumeration order of `Object.entries` / `Object.keys` on a
JavaScript object whose entries were inserted in the given order:
array-index-like keys first, sorted ascending numerically, then the
remaining keys in insertion order. -/
def jsEntries (l : List (String × α)) : List (String × α) :=
  sortByVal (l.filter (fun p => isArrayIndexKey p.1)) ++
  l.filter (fun p => !isArrayIndexKey p.1)

/-- Character class of the JavaScript regular-expression class `\w`, that is
`[A-Za-z0-9_]`; its complement is `\W`. -/
def jsWordChar (c : Char) : Bool :=
  (65 ≤ c.toNat && c.toNat ≤ 90) || (97 ≤ c.toNat && c.toNat ≤ 122) ||
  (48 ≤ c.toNat && c.toNat ≤ 57) || c.toNat == 95

/-- Line terminators, which the regular-expression metacharacter `.` does not
match. -/
def jsLineTerm (c : Char) : Bool :=
  c.toNat == 10 || c.toNat == 13 || c.toNat == 0x2028 || c.toNat == 0x2029

/-- Helper for the end-of-string backtracking case of the replace loop below:
the last index `k ≥ 1` (together with its character) whose character is not a
line terminator, if any. Indices are counted from `i` for the head. -/
def lastNonTermFrom : List Char → Nat → Option (Nat × Char)
  | [], _ => none
  | c :: rest, i =>
    match lastNonTermFrom rest (i + 1) with
    | some r => some r
    | none => if 1 ≤ i && !jsLineTerm c then some (i, c) else none

/-- Model of `str.replace(/\W+(.)/g, (m, chr) => chr.toUpperCase())` from
`CodeFormatting.camelCase` (src/code-formatting.ts line 10). Scanning left to
right: a maximal run of `\W` characters followed by a character `d` matches
`\W+(.)` with group `d` and is replaced by `d.toUpperCase()`. When the run
reaches the end of the string the regex engine backtracks: `\W+` keeps the
prefix of the run up to the largest index `k ≥ 1` holding a non-terminator
character, `(.)` captures that character, and the match (which ends at `k`)
is replaced by its uppercase; if no such index exists there is no match and
the tail is kept verbatim. The fuel argument is bounded by the list length
and only makes the recursion structural. -/
def camelReplace : Nat → List Char → List Char
  | 0, l => l
  | _ + 1, [] => []
  | fuel + 1, c :: rest =>
    if jsWordChar c then c :: camelReplace fuel rest
    else
      match (c :: rest).dropWhile (fun x => !jsWordChar x) with
      | d :: tail => Char.toUpper d :: camelReplace fuel tail
      | [] =>
        match lastNonTermFrom (c :: rest) 0 with
        | some (k, ch) => Char.toUpper ch :: (c :: rest).drop (k + 1)
        | none => c :: rest

/-- Embedding of `CodeFormatting.camelCase` on character lists: the regex
replacement above followed by lowercasing of the first character. -/
def camelCaseL (l : List Char) : List Char :=
  match camelReplace l.length l with
  | [] => []
  | c :: cs => Char.toLower c :: cs

/-- Embedding of `CodeFormatting.pascalCase` on character lists: `camelCase`
followed by uppercasing of the first character. -/
def pascalCaseL (l : List Char) : List Char :=
  match camelCaseL l with
  | [] => []
  | c :: cs => Char.toUpper c :: cs

/-- Embedding of `CodeFormatting.camelCase` (src/code-formatting.ts
lines 9-12). -/
def camelCase (s : String) : String := ⟨camelCaseL s.data⟩

/-- Embedding of `CodeFormatting.pascalCase` (src/code-formatting.ts
lines 14-17). -/
def pascalCase (s : String) : String := ⟨pascalCaseL s.data⟩

/-- First-character class of the identifier test regex
`/^[a-z_$][a-z0-9_$]*$/i`. -/
def isLeadIdentChar (c : Char) : Bool :=
  (65 ≤ c.toNat && c.toNat ≤ 90) || (97 ≤ c.toNat && c.toNat ≤ 122) ||
  c.toNat == 95 || c.toNat == 36

/-- Non-leading character class of the identifier test regex. -/
def isIdentChar (c : Char) : Bool :=
  isLeadIdentChar c || (48 ≤ c.toNat && c.toNat ≤ 57)

/-- Embedding of `CodeFormatting.isSafeIdentifier` (src/code-formatting.ts
lines 5-7): test of `/^[a-z_$][a-z0-9_$]*$/i`. -/
def isSafeIdentifier (s : String) : Bool :=
  match s.data with
  | [] => false
  | c :: cs => isLeadIdentChar c && cs.all isIdentChar

/-- Value of an OpenAPI `enum` entry as it exists at JavaScript runtime; the
generator dispatches on `typeof` of such values. -/
inductive EnumVal where
  | str (s : String)
  | num (n : Int)
  | boolv (b : Bool)
deriving DecidableEq, Repr

/-- JavaScript `String(v)` conversion of an enum value. -/
def jsString : EnumVal → String
  | .str s => s
  | .num n => toString n
  | .boolv b => cond b "true" "false"

mutual
/-- Parsed OpenAPI schema object (the `SchemaObject | ReferenceObject` shape
that every generator function receives). Each field models the JavaScript
object property of the same name; `Option`/dedicated variants model absent
properties. The sub-schema positions use the mutual types below so that all
recursion over schemas is structural. -/
inductive Schema where
  | mk (ref : Option String) (allOf : OptSchemas) (oneOf : OptSchemas)
       (type : Option String) (format : Option String)
       (enumVals : Option (List EnumVal)) (nullable : Bool)
       (properties : Props) (required : Option (List String))
       (addProps : AddProps) (items : OptSchema)
       (readOnly : Bool) (writeOnly : Bool)
/-- Optional sub-schema (for `items`). -/
inductive OptSchema where
  | none
  | some (s : Schema)
/-- Optional list of sub-schemas (for `allOf` / `oneOf`). -/
inductive OptSchemas where
  | none
  | some (l : Schemas)
/-- List of sub-schemas. -/
inductive Schemas where
  | nil
  | cons (hd : Schema) (tl : Schemas)
/-- The `properties` map in declaration order; an absent map and an empty map
are identified because every use site reads `schema.properties ?? {}`. -/
inductive Props where
  | nil
  | cons (name : String) (s : Schema) (tl : Props)
/-- The `additionalProperties` property: absent, boolean or a schema. -/
inductive AddProps where
  | absent
  | boolv (b : Bool)
  | schema (s : Schema)
end

/-- Field accessor for the `$ref` property. -/
def Schema.refA : Schema → Option String
  | .mk r _ _ _ _ _ _ _ _ _ _ _ _ => r

/-- Field accessor for the `type` property. -/
def Schema.typeA : Schema → Option String
  | .mk _ _ _ t _ _ _ _ _ _ _ _ _ => t

/-- Field accessor for the `enum` property. -/
def Schema.enumA : Schema → Option (List EnumVal)
  | .mk _ _ _ _ _ e _ _ _ _ _ _ _ => e

/-- Field accessor for the `readOnly` property (`false` when absent, as in
the source, which only tests truthiness). -/
def Schema.readOnlyA : Schema → Bool
  | .mk _ _ _ _ _ _ _ _ _ _ _ ro _ => ro

/-- Field accessor for the `writeOnly` property. -/
def Schema.writeOnlyA : Schema → Bool
  | .mk _ _ _ _ _ _ _ _ _ _ _ _ wo => wo

/-- Conversion of the schema-list spine to an ordinary list. -/
def Schemas.toList : Schemas → List Schema
  | .nil => []
  | .cons s t => s :: Schemas.toList t

/-- Conversion of the property spine to an ordinary association list. -/
def Props.toList : Props → List (String × Schema)
  | .nil => []
  | .cons n s t => (n, s) :: Props.toList t

/-- The parsed document: `spec.components?.schemas || {}` keyed by name in
declaration order (none of the embedded code paths reads any other part of
the document object itself). -/
structure OASpec where
  schemas : List (String × Schema)

/-- Embedding of `ref.substr('#/components/schemas/'.length)`, the schema
library key named by a `$ref` string. -/
def refKeyOf (r : String) : String := ⟨r.data.drop 21⟩

/-- Embedding of `CodeFormatting.retrieveRef` (src/code-formatting.ts
lines 30-36). Looking up a missing key yields `undefined`, so the subsequent
`'$ref' in schema` throws a `TypeError`; a chain of `$ref` schemas is
followed recursively with no cycle detection, so a cyclic chain exhausts the
call stack (fuel). -/
def retrieveRef : Nat → String → OASpec → Except JsErr Schema
  | 0, _, _ => .error .stackOverflow
  | fuel + 1, r, spec =>
    match jsGet spec.schemas (refKeyOf r) with
    | none => .error .typeError
    | some s =>
      match s.refA with
      | some r2 => retrieveRef fuel r2 spec
      | none => .ok s

/-- Name of the property of a generated TypeScript property signature:
`createIdentifier` for safe names, `createStringLiteral` otherwise. -/
inductive PropName where
  | ident (s : String)
  | strLit (s : String)
deriving DecidableEq, Repr

/-- Generated TypeScript type node, mirroring the `ts.factory` node shapes
the code builds. A `typeLit` row is `(name, readonly modifier present,
question token present, type)`. The `undef` node stands for the JavaScript
`undefined` value flowing where the source indexes an empty array
(`types[0]` on a zero-member composite). -/
inductive TsType where
  | typeRef (ns : Option String) (name : String) (args : List TsType)
  | union (ts : List TsType)
  | inter (ts : List TsType)
  | paren (t : TsType)
  | arrayOf (t : TsType)
  | typeLit (rows : List (PropName × Bool × Bool × TsType))
  | keyword (k : String)
  | litNull
  | litStr (s : String)
  | litNum (s : String)
  | undef

/-- The name of one generated property-signature row, excluding the
`[key: string]` index-signature row (which the source injects through
`createIdentifier('[key: string]')`; a genuine property of that name would
be emitted as a string literal instead, so the two cannot collide). -/
def rowName? (r : PropName × Bool × Bool × TsType) : Option String :=
  match r.1 with
  | .ident s => if s = "[key: string]" then Option.none else Option.some s
  | .strLit s => Option.some s

/-- The row names of a generated object type as a list. -/
def propNamesOf : TsType → List String
  | .typeLit rows => rows.filterMap rowName?
  | _ => []

/-- The `GenerateTypeNodeOptions` record of src/code-gen.ts (the misspelt
`addReaonlyAndWriteonlyFilters` of older call sites is the same flag). -/
structure GenOpts where
  readonly : Bool
  writeonly : Bool
  addFilters : Bool

/-- The `GenerateTypeContext` record of src/code-gen.ts, extended with the
external `safe-identifier` collaborator and the stack fuel for
`retrieveRef`. -/
structure GenCtx where
  spec : OASpec
  prefixRef : Option String
  addRWPrefix : Bool
  opts : GenOpts
  safeIdent : String → String
  fuel : Nat

/-- Embedding of `CodeGen.nullableNodeType` (src/code-gen.ts lines 26-32). -/
def nullableNodeType (node : TsType) (nullable : Bool) : TsType :=
  if !nullable then node
  else .union [node, .litNull]

/-- Embedding of `CodeFormatting.extractRef`: the `$ref` key passed through
the external `safe-identifier` sanitizer. -/
def extractRef (safeIdent : String → String) (r : String) : String :=
  safeIdent (refKeyOf r)

/-- How a property name reaches `generatePropertySignature`: as a plain
string (ordinary properties) or as an already-built identifier node (the
`[key: string]` index-signature hack). -/
inductive PropKey where
  | str (s : String)
  | identNode (s : String)

/-- JavaScript `types[0]`: the head of the list, or `undefined` when the
list is empty. -/
def jsIndexZero (ts : List TsType) : TsType :=
  match ts with
  | [] => .undef
  | t :: _ => t

/-- The part of `CodeGen.generatePropertySignature` (src/code-gen.ts lines
34-82) that follows the recursive computation of the property type `t0`:
name selection by `isSafeIdentifier`, the read-only / write-only view
filters (`null` results), and the optional `readonlyP` / `writeonlyP`
intersection markers. -/
def propSigAssemble (key : PropKey) (propType : Schema) (ctx : GenCtx)
    (isRequired : Bool) (t0 : TsType) : Option (PropName × Bool × Bool × TsType) :=
  let isReadonly := propType.readOnlyA
  let isWriteonly := propType.writeOnlyA
  let name := match key with
    | .str s => if isSafeIdentifier s then PropName.ident s else PropName.strLit s
    | .identNode s => PropName.ident s
  if ctx.opts.readonly = false ∧ isReadonly then
    Option.none
  else if ctx.opts.writeonly = false ∧ isWriteonly then
    Option.none
  else
    let t :=
      if ctx.opts.addFilters then
        if isReadonly then
          TsType.inter [.paren t0, .typeRef Option.none "readonlyP" []]
        else if isWriteonly then
          TsType.inter [.paren t0, .typeRef Option.none "writeonlyP" []]
        else t0
      else t0
    Option.some (name, isReadonly, !isRequired, t)

/-- The `$ref` branch of `CodeGen.generateTypeNodeForSchema` (src/code-gen.ts
lines 106-127): the sanitized (and possibly prefixed) reference name,
wrapped in `WithoutWriteonly` / `WithoutReadonly` when the
readonly-writeonly prefix is requested and the resolved target (via
`retrieveRef`, which can throw) is not an enum. -/
def refBranch (r : String) (ctx : GenCtx) : Except JsErr TsType := do
  let ref0 := extractRef ctx.safeIdent r
  let ref := if jsTruthyS ctx.prefixRef then ctx.prefixRef.getD "" ++ ref0 else ref0
  let schemaForRef ← retrieveRef ctx.fuel r ctx.spec
  let refIsEnum := schemaForRef.enumA.isSome
  if ctx.addRWPrefix && !refIsEnum then
    let typeName := if ctx.opts.readonly then "WithoutWriteonly" else "WithoutReadonly"
    let ns := if jsTruthyS ctx.prefixRef then Option.some (ctx.prefixRef.getD "") else Option.none
    pure (.typeRef ns typeName [.typeRef Option.none ref []])
  else
    pure (.typeRef Option.none ref [])

/-- The non-recursive primitive branches of `CodeGen.generateTypeNodeForSchema`
(src/code-gen.ts lines 157-214), evaluated in source order after the
`array` and `object` tests have failed: `boolean` (enum members become type
references, not nullable-wrapped), `integer`/`number` (numeric literal
union), the `date`/`date-time` formats, `string` (literal set, a single
member collapsing to the literal itself), `null`, and the `unknown`
fallback. -/
def primTypeNode (ty fmt : Option String) (en : Option (List EnumVal)) (nul : Bool) :
    TsType :=
  if ty = Option.some "boolean" then
    match en with
    | Option.some vs => .union (vs.map (fun v => .typeRef Option.none (jsString v) []))
    | Option.none => nullableNodeType (.keyword "boolean") nul
  else if ty = Option.some "integer" ∨ ty = Option.some "number" then
    match en with
    | Option.some vs => nullableNodeType (.union (vs.map (fun v => .litNum (jsString v)))) nul
    | Option.none => nullableNodeType (.keyword "number") nul
  else if fmt = Option.some "date" ∨ fmt = Option.some "date-time" then
    nullableNodeType (.typeRef Option.none "Date" []) nul
  else if ty = Option.some "string" then
    match en with
    | Option.some vs =>
      nullableNodeType
        (match vs.map (fun v => TsType.litStr (jsString v)) with
          | [n] => n
          | ns => .union ns) nul
    | Option.none => nullableNodeType (.keyword "string") nul
  else if ty = Option.some "null" then
    .litNull
  else
    nullableNodeType (.keyword "unknown") nul

mutual
/-- Embedding of `CodeGen.generateTypeNodeForSchema` (src/code-gen.ts
lines 102-215), branch for branch in source order: `$ref` (see `refBranch`),
`allOf`, `oneOf`, `array`, `object`, then the non-recursive primitive
branches (see `primTypeNode`). The calls the source makes to
`generateTypeLiteral` and `generatePropertySignature` are inlined here (see
the equivalent wrappers below) so that the recursion is structural. -/
def generateTypeNodeForSchema : Schema → GenCtx → Except JsErr TsType
  | .mk (Option.some r) _ _ _ _ _ _ _ _ _ _ _ _, ctx => refBranch r ctx
  | .mk Option.none (.some l) _ _ _ _ nul _ _ _ _ _ _, ctx => do
    let types ← generateTypeNodeListForSchemas l ctx
    if types.length < 2 then
      pure (nullableNodeType (jsIndexZero types) nul)
    else
      pure (.inter types)
  | .mk Option.none .none (.some l) _ _ _ nul _ _ _ _ _ _, ctx => do
    let types ← generateTypeNodeListForSchemas l ctx
    if types.length < 2 then
      pure (nullableNodeType (jsIndexZero types) nul)
    else
      pure (.union types)
  | .mk Option.none .none .none ty fmt en nul props req addp items _ _, ctx =>
    if ty = Option.some "array" then
      match items with
      | .none => pure (.arrayOf (.keyword "unknown"))
      | .some itemsSchema => do
        let t ← generateTypeNodeForSchema itemsSchema ctx
        pure (.arrayOf t)
    else if ty = Option.some "object" then do
      let rows ← generateRows req props ctx
      match addp with
      | .schema addSchema => do
        let t0 ← generateTypeNodeForSchema addSchema ctx
        match propSigAssemble (.identNode "[key: string]") addSchema ctx true t0 with
        | Option.some row => pure (.typeLit (rows ++ [row]))
        | Option.none => pure (.typeLit rows)
      | _ => pure (.typeLit rows)
    else
      pure (primTypeNode ty fmt en nul)

/-- Mapping of `schema.allOf.map(s => CodeGen.generateTypeNodeForSchema(s, ctx))`
over the sub-schema spine (an exception aborts the whole map, as in
JavaScript). -/
def generateTypeNodeListForSchemas : Schemas → GenCtx → Except JsErr (List TsType)
  | .nil, _ => pure []
  | .cons s t, ctx => do
    let x ← generateTypeNodeForSchema s ctx
    let xs ← generateTypeNodeListForSchemas t ctx
    pure (x :: xs)

/-- Mapping of `Object.entries(schema.properties ?? {}).map(...)` followed by
`filter(v => !!v)`, over the property spine; the default `isRequired`
argument of the source, `schema.required?.includes(propName) === true`, is
computed here at the call site and the `generatePropertySignature` body is
inlined through `propSigAssemble`. -/
def generateRows (req : Option (List String)) : Props → GenCtx →
    Except JsErr (List (PropName × Bool × Bool × TsType))
  | .nil, _ => pure []
  | .cons n p t, ctx => do
    let t0 ← generateTypeNodeForSchema p ctx
    let sig := propSigAssemble (.str n) p ctx ((req.getD []).contains n) t0
    let rest ← generateRows req t ctx
    match sig with
    | Option.some row => pure (row :: rest)
    | Option.none => pure rest
end

/-- Embedding of `CodeGen.generatePropertySignature` (src/code-gen.ts lines
34-82). The property type is computed before the read-only/write-only view
filters return `null`, exactly as in the source (so a throwing sub-schema
throws even for a filtered-out property). -/
def generatePropertySignature (key : PropKey) (propType : Schema)
    (ctx : GenCtx) (isRequired : Bool) :
    Except JsErr (Option (PropName × Bool × Bool × TsType)) := do
  let t0 ← generateTypeNodeForSchema propType ctx
  pure (propSigAssemble key propType ctx isRequired t0)

/-- Embedding of `CodeGen.generateTypeLiteral` (src/code-gen.ts lines
84-99): the property signatures of the declared properties (dropping the
`null` results), then the index-signature row when `additionalProperties` is
a schema. The parent schema argument of the source is represented by its
`required` list, the only field the callees read. The `object` branch of
`generateTypeNodeForSchema` computes exactly this function. -/
def generateTypeLiteral (props : Props) (req : Option (List String)) (addp : AddProps)
    (ctx : GenCtx) : Except JsErr TsType := do
  let rows ← generateRows req props ctx
  match addp with
  | .schema addSchema => do
    let addRow ← generatePropertySignature (.identNode "[key: string]") addSchema ctx true
    match addRow with
    | Option.some row => pure (.typeLit (rows ++ [row]))
    | Option.none => pure (.typeLit rows)
  | _ => pure (.typeLit rows)

/-- The default options of `CodeGen.generateTypeForSchema` (src/code-gen.ts
lines 222-226). -/
def defaultGenOpts : GenOpts := { readonly := true, writeonly := true, addFilters := true }

/-- The options of the request-body (input) view used by
`populateOperationMethod` (api.ts: `writeonly: true, readonly: false,
addReaonlyAndWriteonlyFilters: false`). -/
def inputViewOpts : GenOpts := { readonly := false, writeonly := true, addFilters := false }

/-- The options of the response (output) view used by
`populateOperationMethod` (api.ts: `writeonly: false, readonly: true,
addReaonlyAndWriteonlyFilters: false`). -/
def outputViewOpts : GenOpts := { readonly := true, writeonly := false, addFilters := false }

/-- The request-body view context built at the `data`-parameter call site of
`populateOperationMethod` with the readonly/writeonly modifiers option
enabled: `generateTypeForSchema(schema, spec, '', true, inputViewOpts)`. -/
def inputViewCtx (spec : OASpec) (safeIdent : String → String) (fuel : Nat) : GenCtx :=
  { spec := spec, prefixRef := Option.some "", addRWPrefix := true,
    opts := inputViewOpts, safeIdent := safeIdent, fuel := fuel }

/-- The response view context built at the return-type call site of
`populateOperationMethod` with the readonly/writeonly modifiers option
enabled. -/
def outputViewCtx (spec : OASpec) (safeIdent : String → String) (fuel : Nat) : GenCtx :=
  { spec := spec, prefixRef := Option.some "", addRWPrefix := true,
    opts := outputViewOpts, safeIdent := safeIdent, fuel := fuel }

mutual
/-- The `string | string[] | null` (plus `undefined` from indexing an empty
array) value family returned by the analyzer helper `getSchemas`
(project-analyzer.ts lines 210-275), as a spine so that the recursion of
`handleSchema` over it is structural. -/
inductive RefsVal where
  | str (s : String)
  | nullv
  | undef
  | arr (l : RefsList)
inductive RefsList where
  | nil
  | cons (v : RefsVal) (l : RefsList)
end

/-- One flattening step of `Array.prototype.flatMap`: an array contributes
its elements, any other value contributes itself. -/
def refsPieces (v : RefsVal) : RefsList :=
  match v with
  | .arr l => l
  | x => .cons x .nil

/-- Concatenation of spines. -/
def RefsList.append : RefsList → RefsList → RefsList
  | .nil, l2 => l2
  | .cons v l, l2 => .cons v (RefsList.append l l2)

/-- The `filter(notEmpty)` of the source: drop `null` and `undefined`. -/
def refsNotEmpty : RefsList → RefsList
  | .nil => .nil
  | .cons v l =>
    match v with
    | .nullv => refsNotEmpty l
    | .undef => refsNotEmpty l
    | x => .cons x (refsNotEmpty l)

/-- Spine length (`types.length`). -/
def refsLength : RefsList → Nat
  | .nil => 0
  | .cons _ l => refsLength l + 1

/-- JavaScript `types[0]` on the spine: `undefined` when empty. -/
def refsIndexZero : RefsList → RefsVal
  | .nil => .undef
  | .cons v _ => v

mutual
/-- Embedding of the inner `getSchema` of the analyzer helper `getSchemas`
(project-analyzer.ts lines 210-275), branch for branch: `$ref` yields the
extracted (sanitized) reference name; `allOf` flat-maps the members and
keeps `types[0]` when fewer than two remain; `oneOf` and `object` do the
same with a `=== 1` test (so zero survivors yield an empty array); `array`
recurses into `items` — throwing a `TypeError` when `items` is absent,
because the source then evaluates `'$ref' in undefined`; every primitive
branch and the fallback yield `null`. -/
def getSchema (si : String → String) : Schema → Except JsErr RefsVal
  | .mk (Option.some r) _ _ _ _ _ _ _ _ _ _ _ _ =>
    .ok (.str (extractRef si r))
  | .mk Option.none (.some l) _ _ _ _ _ _ _ _ _ _ _ => do
    let pieces ← getSchemaFlat si l
    let types := refsNotEmpty pieces
    if refsLength types < 2 then pure (refsIndexZero types)
    else pure (.arr types)
  | .mk Option.none .none (.some l) _ _ _ _ _ _ _ _ _ _ => do
    let pieces ← getSchemaFlat si l
    let types := refsNotEmpty pieces
    if refsLength types = 1 then pure (refsIndexZero types)
    else pure (.arr types)
  | .mk Option.none .none .none ty _ _ _ props _ _ items _ _ =>
    if ty = Option.some "array" then
      match items with
      | .some s => getSchema si s
      | .none => .error .typeError
    else if ty = Option.some "object" then do
      let pieces ← getSchemaFlatProps si props
      let types := refsNotEmpty pieces
      if refsLength types = 1 then pure (refsIndexZero types)
      else pure (.arr types)
    else
      pure .nullv

/-- The `flatMap` over `allOf` / `oneOf` members. -/
def getSchemaFlat (si : String → String) : Schemas → Except JsErr RefsList
  | .nil => pure .nil
  | .cons s t => do
    let v ← getSchema si s
    let rest ← getSchemaFlat si t
    pure (RefsList.append (refsPieces v) rest)

/-- The `flatMap` over `Object.entries(schema.properties || {})`. -/
def getSchemaFlatProps (si : String → String) : Props → Except JsErr RefsList
  | .nil => pure .nil
  | .cons _ s t => do
    let v ← getSchema si s
    let rest ← getSchemaFlatProps si t
    pure (RefsList.append (refsPieces v) rest)
end

/-- Insertion of a reference name into the `referencedTypes` map
(`Map.set(name, {})`): an existing key keeps its position and its (always
empty) value, a new key is appended. -/
def insertRefKey (acc : List String) (s : String) : List String :=
  if acc.contains s then acc else acc ++ [s]

mutual
/-- Embedding of the inner `handleSchema` of `trackReferences`
(project-analyzer.ts lines 197-206): `null` / `undefined` are skipped,
strings are inserted into the map, arrays are walked element-wise. The
source also has a branch for schema objects, but `getSchemas` only ever
produces strings, arrays and `null`, so that branch is unreachable and has
no counterpart here. -/
def handleSchema (acc : List String) : RefsVal → List String
  | .nullv => acc
  | .undef => acc
  | .str s => insertRefKey acc s
  | .arr l => handleSchemaList acc l

/-- The `forEach(handleSchema)` over an array value. -/
def handleSchemaList (acc : List String) : RefsList → List String
  | .nil => acc
  | .cons v l => handleSchemaList (handleSchema acc v) l
end

/-- Embedding of `trackReferences` (project-analyzer.ts lines 190-208); the
`spec` argument mirrors the unused parameter of the source. The tracked map
is represented by its key list because every stored value is the empty
object. -/
def trackReferences (si : String → String) (s : Schema) (acc : List String)
    (spec : OASpec) : Except JsErr (List String) := do
  let _ := spec
  let v ← getSchema si s
  pure (handleSchema acc v)

/-- A `content` media-type object: just its optional `schema`. -/
structure MediaTypeObject where
  schema : Option Schema

/-- A response object: its optional `content` map keyed by media type in
declaration order. A `$ref` response object is represented with
`content := none`, since the analyzer reads only `.content` from it. -/
structure ResponseObject where
  content : Option (List (String × MediaTypeObject))

/-- A request body: either a `$ref` object (whose `content` read is
`undefined`, so indexing it throws) or a concrete body with its `content`
map. -/
inductive RequestBody where
  | refBody (r : String)
  | body (content : List (String × MediaTypeObject))

/-- A declared operation parameter (the fields the embedded code reads). -/
structure Param where
  name : String
  inLoc : Option String
  required : Option Bool
  schema : Option Schema

/-- A declared operation (the fields the embedded code reads). -/
structure Operation where
  operationId : Option String
  tags : Option (List String)
  responses : Option (List (String × ResponseObject))
  requestBody : Option RequestBody
  parameters : Option (List Param)

/-- A path item: its operations keyed by lower-case HTTP method. -/
structure PathItem where
  methods : List (String × Operation)

/-- The `METHODS_WITH_DATA` lookup (`{ post: true, patch: true, put: true }`,
read with `!!METHODS_WITH_DATA[method]`). -/
def isMethodWithDataFor (m : String) : Bool :=
  m == "post" || m == "patch" || m == "put"

/-- The fixed `HTTP_METHODS` iteration order of `analyzePathOperations`. -/
def httpMethods : List String :=
  ["get", "post", "put", "patch", "delete", "head", "options", "trace"]

/-- The `OperationTagAnalysisContext` of the analyzer, extended with the
external sanitizer and the stack fuel. -/
structure TagCtx where
  spec : OASpec
  path : String
  operationId : String
  method : String
  rawTag : String
  safeIdent : String → String
  fuel : Nat

/-- Embedding of the `AnalyzedOperationObject` record built by
`analyzeOperationTag`. -/
structure AnalyzedOperationObject where
  rawTag : String
  tag : String
  operation : Operation
  operationId : String
  operationPath : String
  operationMethod : String
  methodName : String
  pathParams : List Param
  headerParams : List Param
  queryParams : List Param
  params : List Param
  hasPathParams : Bool
  hasHeaderParams : Bool
  hasQueryParams : Bool
  hasParams : Bool
  isMethodWithData : Bool
  hasRequestBody : Bool
  requestBodySchema : Option Schema
  successReturnSchema : Option Schema
  successReturnMimeType : Option String
  paramSchemas : List (String × Option Schema)
  referencedTypes : List String

/-- Accumulator of the parameter loop of `analyzeOperationTag`
(project-analyzer.ts lines 156-181). -/
structure ParamsState where
  params : List Param
  pathParams : List Param
  headerParams : List Param
  queryParams : List Param
  paramSchemas : List (String × Option Schema)
  referencedTypes : List String

/-- Embedding of the `for (const param of operation.parameters ?? [])` loop
of `analyzeOperationTag`: parameters with a falsy `in` are skipped entirely;
every other parameter is pushed onto `params` and additionally onto the
matching one of the three location lists (any other location matches no
switch case); a `$ref` parameter schema is resolved through `retrieveRef`
(which can throw) and tracked; the parameter schema (or `null`) is recorded
in `paramSchemas`. -/
def paramsLoop (ctx : TagCtx) : List Param → ParamsState → Except JsErr ParamsState
  | [], st => pure st
  | p :: rest, st =>
    if !jsTruthyS p.inLoc then paramsLoop ctx rest st
    else
      let st1 := { st with params := st.params ++ [p] }
      let st2 :=
        if p.inLoc = Option.some "path" then
          { st1 with pathParams := st1.pathParams ++ [p] }
        else if p.inLoc = Option.some "header" then
          { st1 with headerParams := st1.headerParams ++ [p] }
        else if p.inLoc = Option.some "query" then
          { st1 with queryParams := st1.queryParams ++ [p] }
        else st1
      do
      let st3 ← (
        match p.schema with
        | Option.some psch =>
          match psch.refA with
          | Option.some r => do
            let refType ← retrieveRef ctx.fuel r ctx.spec
            let refs ← trackReferences ctx.safeIdent refType st2.referencedTypes ctx.spec
            pure { st2 with referencedTypes := refs,
                            paramSchemas := jsSet st2.paramSchemas p.name (Option.some psch) }
          | Option.none =>
            pure { st2 with paramSchemas := jsSet st2.paramSchemas p.name (Option.some psch) }
        | Option.none =>
          pure { st2 with paramSchemas := jsSet st2.paramSchemas p.name Option.none })
      paramsLoop ctx rest st3

/-- The destructuring `const [, successResponseObject] =
Object.entries(responses)[0]` of `analyzeOperationTag`: the first response
object in JavaScript key enumeration order (the fallback for an empty
entries list mirrors the unreachable `{ content: null }` of the source). -/
def firstResponseObject (rs : List (String × ResponseObject)) : ResponseObject :=
  match (jsEntries rs).head? with
  | Option.some e => e.2
  | Option.none => { content := Option.none }

/-- The `successReturnMimeType` computed by `analyzeOperationTag`
(`Object.keys(content)[0]` of the first response object, when it has
content). -/
def firstResponseMime (rs : List (String × ResponseObject)) : Option String :=
  match (firstResponseObject rs).content with
  | Option.some cs => ((jsEntries cs).head?).map (·.1)
  | Option.none => Option.none

/-- The `application/json` media object of the first response object, when
its content declares one (`successResponse` in the source). -/
def firstResponseJson (rs : List (String × ResponseObject)) : Option MediaTypeObject :=
  match (firstResponseObject rs).content with
  | Option.some cs => jsGet cs "application/json"
  | Option.none => Option.none

/-- The request-body extraction of `analyzeOperationTag` (project-analyzer.ts
lines 137-145): only state-mutating methods look at `requestBody`; a `$ref`
request body throws (its `content` read is `undefined`); otherwise the
schema of the `application/json` media type, if any. -/
def requestBodyStep (op : Operation) (withData : Bool) : Except JsErr (Option Schema) :=
  if withData then
    match op.requestBody with
    | Option.none => pure Option.none
    | Option.some (.refBody _) => Except.error JsErr.typeError
    | Option.some (.body content) =>
      pure ((jsGet content "application/json").bind (·.schema))
  else pure Option.none

/-- Embedding of `analyzeOperationTag` (project-analyzer.ts lines 93-188).
Returns `none` (the source returns `null`, filtered out by the caller) when
the `responses` section is absent or has no entry; otherwise assembles the
analyzed record. `Object.entries(responses)[0]` and
`Object.keys(content)[0]` go through `jsEntries` (JavaScript key
enumeration order). -/
def analyzeOperationTag (op : Operation) (ctx : TagCtx) :
    Except JsErr (Option AnalyzedOperationObject) :=
  match op.responses with
  | Option.none => .ok Option.none
  | Option.some rs =>
    if rs.length = 0 then .ok Option.none
    else
      let methodName := camelCase ctx.operationId
      let tag := pascalCase ctx.rawTag
      let withData := isMethodWithDataFor ctx.method
      let mime : Option String := firstResponseMime rs
      let successResponse : Option MediaTypeObject := firstResponseJson rs
      do
      let bodySchema ← requestBodyStep op withData
      let refs1 ← (
        match bodySchema with
        | Option.some bs => trackReferences ctx.safeIdent bs [] ctx.spec
        | Option.none => pure [])
      let successSchema := successResponse.bind (·.schema)
      let refs2 ← (
        match successSchema with
        | Option.some ss => trackReferences ctx.safeIdent ss refs1 ctx.spec
        | Option.none => pure refs1)
      let st ← paramsLoop ctx (op.parameters.getD [])
        { params := [], pathParams := [], headerParams := [], queryParams := [],
          paramSchemas := [], referencedTypes := refs2 }
      Except.ok (Option.some {
        rawTag := ctx.rawTag, tag := tag, operation := op,
        operationId := ctx.operationId, operationPath := ctx.path,
        operationMethod := ctx.method, methodName := methodName,
        pathParams := st.pathParams, headerParams := st.headerParams,
        queryParams := st.queryParams, params := st.params,
        hasPathParams := !st.pathParams.isEmpty,
        hasHeaderParams := !st.headerParams.isEmpty,
        hasQueryParams := !st.queryParams.isEmpty,
        hasParams := !st.pathParams.isEmpty || !st.headerParams.isEmpty ||
                     !st.queryParams.isEmpty,
        isMethodWithData := withData,
        hasRequestBody := bodySchema.isSome,
        requestBodySchema := bodySchema,
        successReturnSchema := successSchema,
        successReturnMimeType := mime,
        paramSchemas := st.paramSchemas,
        referencedTypes := st.referencedTypes })

/-- The per-tag map of `analyzeOperation` (an exception aborts the whole
map, as in JavaScript). -/
def analyzeTagsMap (op : Operation) (ctx : TagCtx) :
    List String → Except JsErr (List (Option AnalyzedOperationObject))
  | [] => pure []
  | t :: ts => do
    let r ← analyzeOperationTag op { ctx with rawTag := t }
    let rest ← analyzeTagsMap op ctx ts
    pure (r :: rest)

/-- Embedding of `analyzeOperation` (project-analyzer.ts lines 83-91): the
declared tags with fallback `["default"]`, mapped through
`analyzeOperationTag`, with the `null` results filtered out. -/
def analyzeOperation (op : Operation) (ctx : TagCtx) :
    Except JsErr (List AnalyzedOperationObject) := do
  let tags :=
    match op.tags with
    | Option.some ts => if ts.length > 0 then ts else ["default"]
    | Option.none => ["default"]
  let results ← analyzeTagsMap op ctx tags
  pure (results.filterMap id)

/-- The `PathOperationsAnalysisContext` of the analyzer, extended with the
external sanitizer and the stack fuel. -/
structure PathCtx where
  spec : OASpec
  path : String
  safeIdent : String → String
  fuel : Nat

/-- Synthesis of a missing operation id
(`context.path.split('/').slice(-1).join('') + '_' + method`). -/
def synthOperationId (path : String) (method : String) : String :=
  (path.splitOn "/").getLastD "" ++ "_" ++ method

/-- The operation id used for analysis: the declared one if truthy, else the
synthesized one. -/
def opIdFor (op : Operation) (path : String) (method : String) : String :=
  if jsTruthyS op.operationId then op.operationId.getD ""
  else synthOperationId path method

/-- The tag-analysis context built for one method of a path item. -/
def mkTagCtx (pctx : PathCtx) (op : Operation) (method : String) : TagCtx :=
  { spec := pctx.spec, path := pctx.path,
    operationId := opIdFor op pctx.path method, method := method,
    rawTag := "", safeIdent := pctx.safeIdent, fuel := pctx.fuel }

/-- The method loop of `analyzePathOperations`: methods without an operation
are skipped, the others are analyzed in the fixed `httpMethods` order and
keyed by method name. -/
def analyzeMethodsLoop (pctx : PathCtx) (item : PathItem) :
    List String → Except JsErr (List (String × List AnalyzedOperationObject))
  | [] => pure []
  | m :: ms =>
    match jsGet item.methods m with
    | Option.none => analyzeMethodsLoop pctx item ms
    | Option.some op => do
      let l ← analyzeOperation op (mkTagCtx pctx op m)
      let rest ← analyzeMethodsLoop pctx item ms
      pure ((m, l) :: rest)

/-- Embedding of `analyzePathOperations` (project-analyzer.ts lines
59-81). -/
def analyzePathOperations (item : PathItem) (pctx : PathCtx) :
    Except JsErr (List (String × List AnalyzedOperationObject)) :=
  analyzeMethodsLoop pctx item httpMethods

/-- The context of `generateTypeForSchema` at the parameter-type call site
of `populateOperationMethod` (api.ts: `generateTypeForSchema(paramSchema,
context.spec, '')` — empty prefix, no readonly/writeonly prefix, default
options). -/
def paramTypeCtx (spec : OASpec) (safeIdent : String → String) (fuel : Nat) : GenCtx :=
  { spec := spec, prefixRef := Option.some "", addRWPrefix := false,
    opts := defaultGenOpts, safeIdent := safeIdent, fuel := fuel }

/-- Embedding of the `params`-argument object literal built by
`populateOperationMethod` (api.ts lines 36-52): one field per entry of
`analysis.params`, keyed by the parameter name with a `?` suffix when
`required === false`, typed from `paramSchemas` (or `unknown` when there is
no schema). Fields accumulate with JavaScript object-assignment
semantics. -/
def populateParamsObject (pctx : PathCtx) (a : AnalyzedOperationObject) :
    List Param → List (String × TsType) → Except JsErr (List (String × TsType))
  | [], acc => pure acc
  | p :: rest, acc => do
    let ty ← (
      match jsGet a.paramSchemas p.name with
      | Option.some (Option.some psch) =>
        generateTypeNodeForSchema psch (paramTypeCtx pctx.spec pctx.safeIdent pctx.fuel)
      | _ => pure (.keyword "unknown"))
    let key := p.name ++ (if p.required == Option.some false then "?" else "")
    populateParamsObject pctx a rest (jsSet acc key ty)

/-- The params-argument fields of the generated method for an analyzed
operation. -/
def paramsArgFields (pctx : PathCtx) (a : AnalyzedOperationObject) :
    Except JsErr (List (String × TsType)) :=
  populateParamsObject pctx a a.params []

/-- The names of the parameters of the generated method, in order, per
`populateOperationMethod` (api.ts lines 34-76): `params` only when
`analysis.hasParams`, `data` only when `analysis.requestBodySchema` is
truthy, and always the trailing optional `options`. -/
def emittedParamNames (a : AnalyzedOperationObject) : List String :=
  (if a.hasParams then ["params"] else []) ++
  (if a.requestBodySchema.isSome then ["data"] else []) ++
  ["options"]

/-- The type text of an emitted enum type alias: a `Writers.unionType` of at
least two stringified members, or the single stringified member alone. -/
inductive AliasTy where
  | unionParts (parts : List String)
  | text (s : String)
deriving DecidableEq, Repr

/-- A declaration emitted into the type library by `generateTypes`
(src/types.ts): an enum alias, an enum declaration, or a named alias bound
to a mapped type node. -/
inductive Decl where
  | typeAlias (name : String) (ty : AliasTy)
  | enumDecl (name : String) (members : List (String × EnumVal))
  | typeAliasNode (name : String) (t : TsType)

/-- ASCII model of `String.prototype.toUpperCase`. -/
def strUpper (s : String) : String := ⟨s.data.map Char.toUpper⟩

/-- JavaScript `val.toUpperCase()` on an enum value: defined for strings
(ASCII model), a `TypeError` for numbers and booleans, which have no such
method. -/
def jsToUpperCaseVal : EnumVal → Except JsErr String
  | .str s => .ok (strUpper s)
  | _ => .error .typeError

/-- The enum member list `schema.enum.map(val => ({ name: val.toUpperCase(),
value: val }))`. -/
def enumMembersOf : List EnumVal → Except JsErr (List (String × EnumVal))
  | [] => pure []
  | v :: vs => do
    let n ← jsToUpperCaseVal v
    let rest ← enumMembersOf vs
    pure ((n, v) :: rest)

/-- The default-options mapping context of `CodeGen.generateTypeForSchema`
as called by `generateTypes` (src/types.ts line 379): no prefix, no
readonly/writeonly prefix, default options. -/
def typeLibCtx (spec : OASpec) (safeIdent : String → String) (fuel : Nat) : GenCtx :=
  { spec := spec, prefixRef := Option.none, addRWPrefix := false,
    opts := defaultGenOpts, safeIdent := safeIdent, fuel := fuel }

/-- The declaration `generateTypes` (src/types.ts lines 357-381) emits for
one named schema of the document library: for a schema with an `enum`
property, the form dispatches on `typeof schema.enum[0]` — a number yields a
type alias whose type is the union of the `String(m)` conversions (or the
single conversion alone when `enum.length > 1` fails), anything else yields
an enum declaration whose members are the uppercased values; a schema
without `enum` yields an alias bound to its mapped type. Names go through
the external `safe-identifier` sanitizer. -/
def generateTypeDecl (spec : OASpec) (safeIdent : String → String) (fuel : Nat)
    (name : String) (s : Schema) : Except JsErr Decl :=
  match s.enumA with
  | Option.some vs =>
    match vs.head? with
    | Option.some (.num _) =>
      .ok (.typeAlias (safeIdent name)
        (if vs.length > 1 then .unionParts (vs.map jsString)
         else .text (jsString (vs.headD (.str "")))))
    | _ => do
      let members ← enumMembersOf vs
      pure (.enumDecl (safeIdent name) members)
  | Option.none => do
    let t ← generateTypeNodeForSchema s (typeLibCtx spec safeIdent fuel)
    pure (.typeAliasNode (safeIdent name) t)

/-- Embedding of the declaration loop of `generateTypes` (src/types.ts
lines 357-381) over all named schemas of the document; a thrown exception
aborts the whole loop (there is no per-schema error handling in the
source). -/
def generateTypes (spec : OASpec) (safeIdent : String → String) (fuel : Nat) :
    Except JsErr (List Decl) :=
  go spec.schemas
where
  go : List (String × Schema) → Except JsErr (List Decl)
    | [] => pure []
    | (n, s) :: rest => do
      let d ← generateTypeDecl spec safeIdent fuel n s
      let ds ← go rest
      pure (d :: ds)

/-- A plain `{ type: string }` schema. -/
def strSchema : Schema :=
  .mk Option.none .none .none (Option.some "string") Option.none Option.none false
    .nil Option.none .absent .none false false

/-- An `allOf` composite with exactly one member and the given `nullable`
flag, all other properties absent. -/
def allOfSingle (s : Schema) (nul : Bool) : Schema :=
  .mk Option.none (.some (.cons s .nil)) .none Option.none Option.none Option.none nul
    .nil Option.none .absent .none false false

/-- A `{ type: string, enum: [...] }` schema with the given `format` and
`nullable` flags. -/
def stringEnumSchema (vs : List EnumVal) (fmt : Option String) (nul : Bool) : Schema :=
  .mk Option.none .none .none (Option.some "string") fmt (Option.some vs) nul
    .nil Option.none .absent .none false false

/-- An `{ type: object }` schema with the given properties, `required` list,
`nullable` flag and `additionalProperties`. -/
def objSchema (props : Props) (req : Option (List String)) (nul : Bool)
    (addp : AddProps) : Schema :=
  .mk Option.none .none .none (Option.some "object") Option.none Option.none nul
    props req addp .none false false

/-- An empty document (no named schemas). -/
def emptySpec : OASpec := ⟨[]⟩

/-- A sample mapping context over the empty document with the identity
sanitizer. -/
def sampleCtx : GenCtx := typeLibCtx emptySpec id 5

set_option maxHeartbeats 1600000 in
/-- C6. An `allOf` composite with exactly one member maps to the mapped type
of that member — except that the source additionally applies
`nullableNodeType` with the nullable flag of the composite schema itself, so
the two mapped types coincide exactly when the composite is not nullable,
and a nullable single-member composite maps to the member type unioned with
`null` (still with no intersection wrapper). -/
theorem c6_amended (s : Schema) (nul : Bool) (ctx : GenCtx) :
    generateTypeNodeForSchema (allOfSingle s nul) ctx =
      Except.map (fun t => nullableNodeType t nul) (generateTypeNodeForSchema s ctx) := by
  cases h : generateTypeNodeForSchema s ctx with
  | error e =>
    simp [allOfSingle, generateTypeNodeForSchema, generateTypeNodeListForSchemas, h,
      Except.map, Bind.bind, Except.bind, Pure.pure, Except.pure]
  | ok t =>
    simp [allOfSingle, generateTypeNodeForSchema, generateTypeNodeListForSchemas, h,
      Except.map, Bind.bind, Except.bind, Pure.pure, Except.pure, jsIndexZero,
      nullableNodeType]

/-- C6. Counterexample to the claim as stated: for a single-member `allOf`
composite that is itself marked nullable, the mapped type is the member
type unioned with `null`, which is not the mapped type of the member. -/
theorem c6_counterexample :
    generateTypeNodeForSchema (allOfSingle strSchema true) sampleCtx =
      .ok (.union [.keyword "string", .litNull]) ∧
    generateTypeNodeForSchema strSchema sampleCtx = .ok (.keyword "string") ∧
    TsType.union [.keyword "string", .litNull] ≠ TsType.keyword "string" := by
  refine ⟨rfl, rfl, ?_⟩
  intro h
  exact TsType.noConfusion h

set_option maxHeartbeats 1600000 in
/-- C7. A string-typed schema carrying an enumeration and no `date` /
`date-time` format maps to one string literal per enum value: a union of
the literals when there are several, and the single literal alone (never a
one-member union) when there is exactly one — wrapped with the nullable
flag. -/
theorem c7_amended (vs : List EnumVal) (fmt : Option String) (nul : Bool) (ctx : GenCtx)
    (h1 : fmt ≠ Option.some "date") (h2 : fmt ≠ Option.some "date-time") :
    generateTypeNodeForSchema (stringEnumSchema vs fmt nul) ctx =
      .ok (nullableNodeType
        (match vs.map (fun v => TsType.litStr (jsString v)) with
          | [n] => n
          | ns => .union ns) nul) := by
  simp only [stringEnumSchema, generateTypeNodeForSchema]
  rw [if_neg (by simp), if_neg (by simp)]
  simp only [primTypeNode]
  rw [if_neg (by simp), if_neg (by simp), if_neg (by simp [h1, h2])]
  simp [Pure.pure, Except.pure]

/-- C7. Witness: the one-value enumeration `["A"]` maps to exactly the
string literal `"A"`, not to a one-member union. -/
theorem c7_amended_witness :
    generateTypeNodeForSchema (stringEnumSchema [.str "A"] Option.none false) sampleCtx =
      .ok (.litStr "A") :=
  c7_amended [.str "A"] Option.none false sampleCtx (by simp) (by simp)

/-- C7. Counterexample to the claim as stated: a string-typed schema carrying
the enumeration `["A"]` but also `format: date` maps to the `Date` type
reference (the date-format branch precedes the string branch), not to a
literal set. -/
theorem c7_counterexample :
    generateTypeNodeForSchema (stringEnumSchema [.str "A"] (Option.some "date") false)
        sampleCtx = .ok (.typeRef Option.none "Date" []) ∧
    (stringEnumSchema [.str "A"] (Option.some "date") false).typeA =
      Option.some "string" ∧
    (stringEnumSchema [.str "A"] (Option.some "date") false).enumA =
      Option.some [.str "A"] ∧
    TsType.typeRef Option.none "Date" [] ≠ TsType.litStr "A" := by
  refine ⟨rfl, rfl, rfl, ?_⟩
  intro h
  exact TsType.noConfusion h

/-- Whether the view filters of `generatePropertySignature` drop a property
with the given flags under the given context options. -/
def dropsRow (ctx : GenCtx) (p : Schema) : Bool :=
  (!ctx.opts.readonly && p.readOnlyA) || (!ctx.opts.writeonly && p.writeOnlyA)

lemma isSafeIdentifier_ne_indexKey {n : String} (h : isSafeIdentifier n = true) :
    n ≠ "[key: string]" := by
  intro he
  rw [he] at h
  exact absurd h (by decide)

lemma propSigAssemble_eq_none_iff (n : String) (p : Schema) (ctx : GenCtx)
    (req : Bool) (t0 : TsType) :
    propSigAssemble (.str n) p ctx req t0 = Option.none ↔ dropsRow ctx p = true := by
  cases hro : p.readOnlyA <;> cases hwo : p.writeOnlyA <;>
    cases hr : ctx.opts.readonly <;> cases hw : ctx.opts.writeonly <;>
    simp [propSigAssemble, dropsRow, hro, hwo, hr, hw]

lemma rowName?_propSigAssemble_str (n : String) (p : Schema) (ctx : GenCtx)
    (req : Bool) (t0 : TsType) (row : PropName × Bool × Bool × TsType)
    (h : propSigAssemble (.str n) p ctx req t0 = Option.some row) :
    rowName? row = Option.some n := by
  simp only [propSigAssemble] at h
  split_ifs at h
  all_goals
    injection h with h
    subst h
    first
    | (simp [rowName?]; done)
    | (simp only [rowName?]
       rw [if_neg (isSafeIdentifier_ne_indexKey (by assumption))])

lemma rowName?_propSigAssemble_index (p : Schema) (ctx : GenCtx)
    (req : Bool) (t0 : TsType) (row : PropName × Bool × Bool × TsType)
    (h : propSigAssemble (.identNode "[key: string]") p ctx req t0 = Option.some row) :
    rowName? row = Option.none := by
  simp only [propSigAssemble] at h
  split_ifs at h
  all_goals
    injection h with h
    subst h
    simp [rowName?]

lemma generateRows_names (req : Option (List String)) (ctx : GenCtx) :
    ∀ (props : Props) (rows : List (PropName × Bool × Bool × TsType)),
      generateRows req props ctx = .ok rows →
      rows.filterMap rowName? =
        (props.toList.filter (fun pr => !dropsRow ctx pr.2)).map (·.1)
  | .nil, rows, h => by
    simp only [generateRows, Pure.pure, Except.pure] at h
    injection h with h
    subst h
    simp [Props.toList]
  | .cons n p t, rows, h => by
    simp only [generateRows, Bind.bind, Except.bind] at h
    cases hg : generateTypeNodeForSchema p ctx with
    | error e => rw [hg] at h; cases h
    | ok t0 =>
      rw [hg] at h
      cases hr : generateRows req t ctx with
      | error e => rw [hr] at h; cases h
      | ok rest =>
        rw [hr] at h
        dsimp only at h
        by_cases hd : dropsRow ctx p = true
        · rw [(propSigAssemble_eq_none_iff n p ctx ((req.getD []).contains n) t0).mpr hd] at h
          simp only [Pure.pure, Except.pure] at h
          injection h with h
          subst h
          rw [generateRows_names req ctx t rest hr]
          simp [Props.toList, List.filter, hd]
        · cases hsig : propSigAssemble (.str n) p ctx ((req.getD []).contains n) t0 with
          | none => exact absurd ((propSigAssemble_eq_none_iff _ _ _ _ _).mp hsig) hd
          | some row =>
            rw [hsig] at h
            simp only [Pure.pure, Except.pure] at h
            injection h with h
            subst h
            have hname := rowName?_propSigAssemble_str n p ctx _ t0 row hsig
            simp only [List.filterMap_cons, hname, Props.toList, List.filter]
            rw [generateRows_names req ctx t rest hr]
            simp [Bool.not_eq_true] at hd
            simp [hd]

lemma objSchema_propNames (props : Props) (req : Option (List String)) (nul : Bool)
    (addp : AddProps) (ctx : GenCtx) (t : TsType)
    (h : generateTypeNodeForSchema (objSchema props req nul addp) ctx = .ok t) :
    propNamesOf t = (props.toList.filter (fun pr => !dropsRow ctx pr.2)).map (·.1) := by
  simp +decide only [objSchema, generateTypeNodeForSchema, Bind.bind, Except.bind] at h
  cases hg : generateRows req props ctx with
  | error e =>
    rw [hg] at h
    dsimp only at h
    exact Except.noConfusion h
  | ok rows =>
    rw [hg] at h
    dsimp only at h
    have hnames := generateRows_names req ctx props rows hg
    cases addp with
    | absent =>
      dsimp only at h
      simp only [Pure.pure, Except.pure] at h
      injection h with h
      subst h
      simpa [propNamesOf] using hnames
    | boolv b =>
      dsimp only at h
      simp only [Pure.pure, Except.pure] at h
      injection h with h
      subst h
      simpa [propNamesOf] using hnames
    | schema aS =>
      dsimp only at h
      cases ha : generateTypeNodeForSchema aS ctx with
      | error e =>
        rw [ha] at h
        dsimp only at h
        exact Except.noConfusion h
      | ok t0 =>
        rw [ha] at h
        dsimp only at h
        cases hsig : propSigAssemble (.identNode "[key: string]") aS ctx true t0 with
        | none =>
          rw [hsig] at h
          simp only [Pure.pure, Except.pure] at h
          injection h with h
          subst h
          simpa [propNamesOf] using hnames
        | some row =>
          rw [hsig] at h
          simp only [Pure.pure, Except.pure] at h
          injection h with h
          subst h
          have hrow := rowName?_propSigAssemble_index aS ctx true t0 row hsig
          simp [propNamesOf, List.filterMap_append, hrow, hnames]

/-- C4. With the readonly/writeonly modifiers option enabled, the input
(request-body) view of an object type contains exactly the properties not
marked `readOnly: true` — so a property marked only `readOnly` is present in
the output view and absent from the input view — and the output (response)
view contains exactly the properties not marked `writeOnly: true`; in
particular a property marked both `readOnly` and `writeOnly` is absent from
both views. -/
theorem c4_amended (spec : OASpec) (si : String → String) (fuel : Nat)
    (props : Props) (req : Option (List String)) (nul : Bool) (addp : AddProps)
    (tIn tOut : TsType)
    (hIn : generateTypeNodeForSchema (objSchema props req nul addp)
      (inputViewCtx spec si fuel) = .ok tIn)
    (hOut : generateTypeNodeForSchema (objSchema props req nul addp)
      (outputViewCtx spec si fuel) = .ok tOut) :
    propNamesOf tIn = (props.toList.filter (fun pr => !pr.2.readOnlyA)).map (·.1) ∧
    propNamesOf tOut = (props.toList.filter (fun pr => !pr.2.writeOnlyA)).map (·.1) := by
  have h1 := objSchema_propNames props req nul addp (inputViewCtx spec si fuel) tIn hIn
  have h2 := objSchema_propNames props req nul addp (outputViewCtx spec si fuel) tOut hOut
  have e1 : props.toList.filter (fun pr => !dropsRow (inputViewCtx spec si fuel) pr.2) =
      props.toList.filter (fun pr => !pr.2.readOnlyA) := by
    apply List.filter_congr
    intro a _
    simp [dropsRow, inputViewCtx, inputViewOpts]
  have e2 : props.toList.filter (fun pr => !dropsRow (outputViewCtx spec si fuel) pr.2) =
      props.toList.filter (fun pr => !pr.2.writeOnlyA) := by
    apply List.filter_congr
    intro a _
    simp [dropsRow, outputViewCtx, outputViewOpts]
  rw [h1, h2, e1, e2]
  exact ⟨rfl, rfl⟩

/-- A `{ type: string }` property schema with the given `readOnly` and
`writeOnly` flags. -/
def flaggedStrProp (ro wo : Bool) : Schema :=
  .mk Option.none .none .none (Option.some "string") Option.none Option.none false
    .nil Option.none .absent .none ro wo

/-- C4. Witness: in an object with a read-only property `r` and a write-only
property `w`, the input view contains exactly `w` and the output view
exactly `r`. -/
theorem c4_amended_witness :
    propNamesOf (.typeLit [(.ident "w", false, true, .keyword "string")]) = ["w"] ∧
    propNamesOf (.typeLit [(.ident "r", true, true, .keyword "string")]) = ["r"] :=
  c4_amended emptySpec id 5
    (.cons "r" (flaggedStrProp true false) (.cons "w" (flaggedStrProp false true) .nil))
    Option.none false .absent
    (.typeLit [(.ident "w", false, true, .keyword "string")])
    (.typeLit [(.ident "r", true, true, .keyword "string")])
    rfl rfl

/-- C4. Counterexample to the claim as stated: a property marked both
`readOnly: true` and `writeOnly: true` is absent from the output view (and
from the input view) of its owning type, although the claim promises that
every `readOnly: true` property appears in the output view. -/
theorem c4_counterexample :
    generateTypeNodeForSchema
      (objSchema (.cons "p" (flaggedStrProp true true) .nil) Option.none false .absent)
      (outputViewCtx emptySpec id 5) = .ok (.typeLit []) ∧
    generateTypeNodeForSchema
      (objSchema (.cons "p" (flaggedStrProp true true) .nil) Option.none false .absent)
      (inputViewCtx emptySpec id 5) = .ok (.typeLit []) ∧
    (flaggedStrProp true true).readOnlyA = true := ⟨rfl, rfl, rfl⟩

lemma toNat_ofNat_valid (n : Nat) (h : n.isValidChar) : (Char.ofNat n).toNat = n := by
  rw [Char.ofNat, dif_pos h]
  rfl

lemma jsWordChar_toUpper {c : Char} (h : jsWordChar c = true) :
    jsWordChar (Char.toUpper c) = true := by
  simp only [jsWordChar, Bool.or_eq_true, Bool.and_eq_true, decide_eq_true_eq,
    beq_iff_eq] at h ⊢
  have hdef : Char.toUpper c =
      if c.toNat ≥ 97 ∧ c.toNat ≤ 122 then Char.ofNat (c.toNat - 32) else c := rfl
  rw [hdef]
  split
  · next hr =>
    have hv : Nat.isValidChar (c.toNat - 32) := Or.inl (by omega)
    rw [toNat_ofNat_valid _ hv]
    omega
  · next => omega

/-- The class of ASCII letters and the underscore: the raw strings whose
camel/pascal projection is a safe identifier start with one of these. -/
def isLetterUnderscore (c : Char) : Bool :=
  (65 ≤ c.toNat && c.toNat ≤ 90) || (97 ≤ c.toNat && c.toNat ≤ 122) || c.toNat == 95

lemma jsWordChar_of_letterUnderscore {c : Char} (h : isLetterUnderscore c = true) :
    jsWordChar c = true := by
  simp only [isLetterUnderscore, jsWordChar, Bool.or_eq_true, Bool.and_eq_true,
    decide_eq_true_eq, beq_iff_eq] at h ⊢
  omega

lemma isIdentChar_of_word {c : Char} (h : jsWordChar c = true) :
    isIdentChar c = true := by
  simp only [jsWordChar, isIdentChar, isLeadIdentChar, Bool.or_eq_true, Bool.and_eq_true,
    decide_eq_true_eq, beq_iff_eq] at h ⊢
  omega

lemma isLeadIdentChar_toLower {c : Char} (h : isLetterUnderscore c = true) :
    isLeadIdentChar (Char.toLower c) = true := by
  simp only [isLetterUnderscore, Bool.or_eq_true, Bool.and_eq_true, decide_eq_true_eq,
    beq_iff_eq] at h
  have hdef : Char.toLower c =
      if c.toNat ≥ 65 ∧ c.toNat ≤ 90 then Char.ofNat (c.toNat + 32) else c := rfl
  simp only [isLeadIdentChar, Bool.or_eq_true, Bool.and_eq_true, decide_eq_true_eq,
    beq_iff_eq]
  rw [hdef]
  split
  · next hr =>
    have hv : Nat.isValidChar (c.toNat + 32) := Or.inl (by omega)
    rw [toNat_ofNat_valid _ hv]
    omega
  · next => omega

lemma isLeadIdentChar_toUpper {c : Char} (h : isLeadIdentChar c = true) :
    isLeadIdentChar (Char.toUpper c) = true := by
  simp only [isLeadIdentChar, Bool.or_eq_true, Bool.and_eq_true, decide_eq_true_eq,
    beq_iff_eq] at h ⊢
  have hdef : Char.toUpper c =
      if c.toNat ≥ 97 ∧ c.toNat ≤ 122 then Char.ofNat (c.toNat - 32) else c := rfl
  rw [hdef]
  split
  · next hr =>
    have hv : Nat.isValidChar (c.toNat - 32) := Or.inl (by omega)
    rw [toNat_ofNat_valid _ hv]
    omega
  · next => omega

lemma getLast?_cons_of_ne_nil {α : Type} (c : α) {rest : List α} (h : rest ≠ []) :
    (c :: rest).getLast? = rest.getLast? := by
  cases rest with
  | nil => exact absurd rfl h
  | cons d t => exact List.getLast?_cons_cons

lemma getLast?_of_suffix {α : Type} {s l : List α} (h : s <:+ l) (hs : s ≠ []) :
    s.getLast? = l.getLast? := by
  obtain ⟨t, rfl⟩ := h
  cases hx : s.getLast? with
  | none => exact absurd (List.getLast?_eq_none_iff.mp hx) hs
  | some w => rw [List.getLast?_append, hx]; rfl

lemma camelReplace_allWord : ∀ (fuel : Nat) (l : List Char), l.length ≤ fuel →
    (∀ w, l.getLast? = some w → jsWordChar w = true) →
    ∀ x ∈ camelReplace fuel l, jsWordChar x = true := by
  intro fuel
  induction fuel with
  | zero =>
    intro l hlen _ x hx
    have hnil : l = [] := List.length_eq_zero.mp (Nat.le_zero.mp hlen)
    subst hnil
    simp [camelReplace] at hx
  | succ fuel ih =>
    intro l hlen hlast x hx
    cases l with
    | nil => simp [camelReplace] at hx
    | cons c rest =>
      by_cases hw : jsWordChar c = true
      · rw [show camelReplace (fuel + 1) (c :: rest) = c :: camelReplace fuel rest from by
          simp [camelReplace, hw]] at hx
        rcases List.mem_cons.mp hx with hx | hx
        · subst hx; exact hw
        · refine ih rest ?_ ?_ x hx
          · simpa [Nat.succ_le_succ_iff] using hlen
          · intro w hwl
            have hne : rest ≠ [] := by
              intro hn; subst hn; simp at hwl
            exact hlast w (by rw [getLast?_cons_of_ne_nil c hne]; exact hwl)
      · cases hd : (c :: rest).dropWhile (fun y => !jsWordChar y) with
        | nil =>
          exfalso
          have hall := List.dropWhile_eq_nil_iff.mp hd
          obtain ⟨w, hwl⟩ : ∃ w, (c :: rest).getLast? = some w := by
            cases hx2 : (c :: rest).getLast? with
            | none => simp [List.getLast?_eq_none_iff] at hx2
            | some w => exact ⟨w, rfl⟩
          have hmem := List.mem_of_getLast?_eq_some hwl
          have hnw := hall w hmem
          have hword := hlast w hwl
          simp [hword] at hnw
        | cons d tail =>
          rw [show camelReplace (fuel + 1) (c :: rest) =
              Char.toUpper d :: camelReplace fuel tail from by
            simp only [camelReplace, hw, if_false, Bool.false_eq_true, hd]] at hx
          rcases List.mem_cons.mp hx with hx | hx
          · subst hx
            have hdw : jsWordChar d = true := by
              have h0 := List.head?_dropWhile_not (fun y => !jsWordChar y) (c :: rest)
              rw [hd] at h0
              simpa using h0
            exact jsWordChar_toUpper hdw
          · refine ih tail ?_ ?_ x hx
            · have hsub : (c :: rest).dropWhile (fun y => !jsWordChar y) =
                  rest.dropWhile (fun y => !jsWordChar y) :=
                List.dropWhile_cons_of_pos (by simp [hw])
              have hlen2 : (d :: tail).length ≤ rest.length := by
                rw [← hd, hsub]
                exact (List.dropWhile_suffix _).length_le
              have hlen3 : rest.length + 1 ≤ fuel + 1 := by simpa using hlen
              simp only [List.length_cons] at hlen2
              omega
            · intro w hwl
              have htne : tail ≠ [] := by
                intro hn; subst hn; simp at hwl
              have hsfx : tail <:+ (c :: rest) := by
                have h1 : d :: tail <:+ (c :: rest) := by
                  rw [← hd]; exact List.dropWhile_suffix _
                exact (List.suffix_cons d tail).trans h1
              exact hlast w (by rw [← getLast?_of_suffix hsfx htne]; exact hwl)

/-- C5. The camel/pascal projections yield valid identifiers for every raw
string that begins with an ASCII letter or underscore and ends with a word
character (`[A-Za-z0-9_]`): every interior run of invalid characters is
stripped, with the following character uppercased. (Without those two side
conditions the projections are not identifier-safe; see the
counterexample.) -/
lemma isSafeIdentifier_mk (l : List Char) :
    isSafeIdentifier ⟨l⟩ =
      (match l with
        | [] => false
        | c :: cs => isLeadIdentChar c && cs.all isIdentChar) := rfl

theorem c5_amended (s : String) (c : Char) (hc : s.data.head? = some c)
    (hlead : isLetterUnderscore c = true) (w : Char) (hw : s.data.getLast? = some w)
    (hword : jsWordChar w = true) :
    isSafeIdentifier (camelCase s) = true ∧ isSafeIdentifier (pascalCase s) = true := by
  obtain ⟨rest, hrest⟩ : ∃ rest, s.data = c :: rest := by
    cases hsd : s.data with
    | nil => rw [hsd] at hc; simp at hc
    | cons a t =>
      rw [hsd] at hc
      simp only [List.head?_cons] at hc
      injection hc with hc
      subst hc
      exact ⟨t, rfl⟩
  have hcw : jsWordChar c = true := jsWordChar_of_letterUnderscore hlead
  have hrepl : camelReplace s.data.length s.data =
      c :: camelReplace rest.length rest := by
    rw [hrest]
    simp [camelReplace, hcw]
  have hallrest : ∀ x ∈ camelReplace rest.length rest, jsWordChar x = true := by
    intro x hx
    refine camelReplace_allWord rest.length rest (Nat.le_refl _) ?_ x hx
    intro w2 hw2
    have hne : rest ≠ [] := by
      intro hn; subst hn; simp at hw2
    have hsw : s.data.getLast? = some w2 := by
      rw [hrest, getLast?_cons_of_ne_nil c hne]; exact hw2
    rw [hw] at hsw
    injection hsw with hsw
    rw [← hsw]
    exact hword
  have hcamel : camelCaseL s.data = Char.toLower c :: camelReplace rest.length rest := by
    simp only [camelCaseL, hrepl]
  have htail : (camelReplace rest.length rest).all isIdentChar = true :=
    List.all_eq_true.mpr (fun x hx => isIdentChar_of_word (hallrest x hx))
  constructor
  · rw [camelCase, isSafeIdentifier_mk, hcamel]
    rw [Bool.and_eq_true]
    exact ⟨isLeadIdentChar_toLower hlead, htail⟩
  · rw [pascalCase, isSafeIdentifier_mk, pascalCaseL, hcamel]
    rw [Bool.and_eq_true]
    exact ⟨isLeadIdentChar_toUpper (isLeadIdentChar_toLower hlead), htail⟩

/-- C5. Witness: the raw operation id `"list-users"` projects to the valid
identifiers `listUsers` and `ListUsers`. -/
theorem c5_amended_witness :
    isSafeIdentifier (camelCase "list-users") = true ∧
    isSafeIdentifier (pascalCase "list-users") = true :=
  c5_amended "list-users" 'l' rfl (by decide) 's' (by decide) (by decide)

/-- C5. Counterexample to the claim as stated: the derived method name of an
operation id with a trailing non-word character keeps that character
verbatim (`camelCase "users!" = "users!"`), and a leading digit is kept
(`pascalCase "2users" = "2users"`), so derived names are not always valid
identifiers. -/
theorem c5_counterexample :
    camelCase "users!" = "users!" ∧ isSafeIdentifier (camelCase "users!") = false ∧
    pascalCase "2users" = "2users" ∧
    isSafeIdentifier (pascalCase "2users") = false := by
  refine ⟨?_, ?_, ?_, ?_⟩ <;> decide

/-- A schema that consists of a single `$ref` property. -/
def refSchemaOnly (r : String) : Schema :=
  .mk (Option.some r) .none .none Option.none Option.none Option.none false
    .nil Option.none .absent .none false false

/-- A two-schema library whose reference chain cycles: `A → B → A`. -/
def cyclicSpec : OASpec :=
  ⟨[("A", refSchemaOnly "#/components/schemas/B"),
    ("B", refSchemaOnly "#/components/schemas/A")]⟩

/-- A library with one dangling reference and one well-formed schema. -/
def danglingSpec : OASpec :=
  ⟨[("Bad", refSchemaOnly "#/components/schemas/Missing"), ("Good", strSchema)]⟩

/-- C1. Amended behavior of reference resolution: when the target name is
absent from the schema library, `retrieveRef` throws a JavaScript
`TypeError` (evaluating `'$ref' in undefined`), and when the reference
chain stays inside a set of names that all map to further references, the
recursion never reaches a concrete definition for any stack budget
(modelled as fuel), exhausting the call stack. No `UnresolvedReferenceError`
or `CircularReferenceError` class exists in the code. -/
theorem c1_amended :
    (∀ (spec : OASpec) (r : String) (fuel : Nat),
      jsGet spec.schemas (refKeyOf r) = Option.none →
      retrieveRef (fuel + 1) r spec = .error .typeError) ∧
    (∀ (spec : OASpec) (S : List String) (r : String),
      S.all (fun k =>
        match jsGet spec.schemas k with
        | Option.some s =>
          match s.refA with
          | Option.some r2 => decide (refKeyOf r2 ∈ S)
          | Option.none => false
        | Option.none => false) = true →
      refKeyOf r ∈ S →
      ∀ fuel, retrieveRef fuel r spec = .error .stackOverflow) := by
  constructor
  · intro spec r fuel h
    simp [retrieveRef, h]
  · intro spec S r hS hmem fuel
    induction fuel generalizing r with
    | zero => rfl
    | succ fuel ih =>
      have hk := List.all_eq_true.mp hS _ hmem
      cases hg : jsGet spec.schemas (refKeyOf r) with
      | none => rw [hg] at hk; cases hk
      | some s =>
        rw [hg] at hk
        dsimp only at hk
        cases hra : s.refA with
        | none => rw [hra] at hk; cases hk
        | some r2 =>
          rw [hra] at hk
          dsimp only at hk
          have hm2 : refKeyOf r2 ∈ S := of_decide_eq_true hk
          simp only [retrieveRef, hg, hra]
          exact ih r2 hm2

/-- C1. Witness: resolving a reference against an empty library throws a
`TypeError`, and resolving into the two-element cycle `A → B → A` overflows
the stack for a concrete fuel. -/
theorem c1_amended_witness :
    retrieveRef 6 "#/components/schemas/missing" emptySpec = .error .typeError ∧
    retrieveRef 9 "#/components/schemas/A" cyclicSpec = .error .stackOverflow :=
  ⟨c1_amended.1 emptySpec "#/components/schemas/missing" 5 rfl,
   c1_amended.2 cyclicSpec ["A", "B"] "#/components/schemas/A" (by decide) (by decide) 9⟩

/-- C1. Counterexample to the claim as stated: on a document with one
dangling reference and one well-formed schema, the type-library run does not
fail with an `UnresolvedReferenceError` that aborts only the affected type —
it throws a JavaScript `TypeError` that aborts the whole run, emitting no
declaration at all (in particular not the one of the well-formed schema,
which alone yields its declaration). -/
theorem c1_counterexample :
    generateTypes danglingSpec id 5 = .error .typeError ∧
    generateTypes ⟨[("Good", strSchema)]⟩ id 5 =
      .ok [.typeAliasNode "Good" (.keyword "string")] := ⟨rfl, rfl⟩

/-- A schema that consists of a single `enum` property. -/
def enumOnlySchema (vs : List EnumVal) : Schema :=
  .mk Option.none .none .none Option.none Option.none (Option.some vs) false
    .nil Option.none .absent .none false false

lemma enumMembersOf_strings : ∀ (vs : List EnumVal), (∀ v ∈ vs, ∃ s, v = EnumVal.str s) →
    enumMembersOf vs = .ok (vs.map (fun v => (strUpper (jsString v), v)))
  | [], _ => rfl
  | v :: vs, h => by
    obtain ⟨s, rfl⟩ := h v (List.mem_cons_self v vs)
    have hrest := enumMembersOf_strings vs (fun w hw => h w (List.mem_cons_of_mem _ hw))
    simp [enumMembersOf, jsToUpperCaseVal, hrest, Bind.bind, Except.bind, Pure.pure,
      Except.pure, jsString]

/-- C10. For a document-level named schema carrying an enumeration, the
emitted declaration dispatches on the runtime type of the first enum value:
a number yields a type alias whose type is the union of the stringified
values (the single stringified value alone when there is exactly one);
otherwise, when every value is a string, an enum declaration is emitted with
one member per value, named by the uppercased value and valued by the
original value. (A non-string value reached in the second branch crashes
with a `TypeError`; see the counterexample.) -/
theorem c10_amended (spec : OASpec) (si : String → String) (fuel : Nat)
    (name : String) (vs : List EnumVal) :
    (∀ n, vs.head? = Option.some (.num n) →
      generateTypeDecl spec si fuel name (enumOnlySchema vs) =
        .ok (.typeAlias (si name)
          (if vs.length > 1 then .unionParts (vs.map jsString)
           else .text (jsString (vs.headD (.str "")))))) ∧
    ((∀ v ∈ vs, ∃ s, v = EnumVal.str s) →
      generateTypeDecl spec si fuel name (enumOnlySchema vs) =
        .ok (.enumDecl (si name) (vs.map (fun v => (strUpper (jsString v), v))))) := by
  constructor
  · intro n h
    simp only [generateTypeDecl, enumOnlySchema, Schema.enumA, h]
  · intro h
    have hm := enumMembersOf_strings vs h
    cases hh : vs.head? with
    | none =>
      have : vs = [] := by
        cases vs with
        | nil => rfl
        | cons a t => simp at hh
      subst this
      simp [generateTypeDecl, enumOnlySchema, Schema.enumA]
      rfl
    | some v =>
      obtain ⟨s, rfl⟩ : ∃ s, v = EnumVal.str s := by
        apply h
        cases vs with
        | nil => simp at hh
        | cons a t =>
          simp only [List.head?_cons] at hh
          injection hh with hh
          subst hh
          exact List.mem_cons_self _ _
      simp only [generateTypeDecl, enumOnlySchema, Schema.enumA, hh]
      simp [hm, Bind.bind, Except.bind, Pure.pure, Except.pure]

/-- C10. Witness: the numeric enumeration `[1, 2]` yields the alias
`1 | 2`, and the string enumeration `["a"]` yields an enum declaration with
the single member `A = "a"`. -/
theorem c10_amended_witness :
    generateTypeDecl emptySpec id 5 "E" (enumOnlySchema [.num 1, .num 2]) =
      .ok (.typeAlias "E" (.unionParts ["1", "2"])) ∧
    generateTypeDecl emptySpec id 5 "F" (enumOnlySchema [.str "a"]) =
      .ok (.enumDecl "F" [("A", .str "a")]) :=
  ⟨(c10_amended emptySpec id 5 "E" [.num 1, .num 2]).1 1 rfl,
   (c10_amended emptySpec id 5 "F" [.str "a"]).2
     (fun v hv => by
       rcases List.mem_singleton.mp hv with rfl
       exact ⟨"a", rfl⟩)⟩

/-- C10. Counterexample to the claim as stated: a named schema whose
enumeration starts with a string but also contains a number does not get an
enum declaration with uppercased member names — the generator crashes with a
`TypeError` (`val.toUpperCase` is not a function on a number). -/
theorem c10_counterexample :
    generateTypeDecl emptySpec id 5 "E" (enumOnlySchema [.str "a", .num 3]) =
      .error .typeError ∧
    (enumOnlySchema [.str "a", .num 3]).enumA =
      Option.some [.str "a", .num 3] := ⟨rfl, rfl⟩

lemma analyzeOperationTag_fields (op : Operation) (ctx : TagCtx)
    (a : AnalyzedOperationObject)
    (h : analyzeOperationTag op ctx = .ok (Option.some a)) :
    ∃ rs bodySchema refs2 st,
      op.responses = Option.some rs ∧ rs.length ≠ 0 ∧
      requestBodyStep op (isMethodWithDataFor ctx.method) = .ok bodySchema ∧
      paramsLoop ctx (op.parameters.getD [])
        { params := [], pathParams := [], headerParams := [], queryParams := [],
          paramSchemas := [], referencedTypes := refs2 } = .ok st ∧
      a.requestBodySchema = bodySchema ∧
      a.hasRequestBody = bodySchema.isSome ∧
      a.isMethodWithData = isMethodWithDataFor ctx.method ∧
      a.successReturnSchema = (firstResponseJson rs).bind (·.schema) ∧
      a.successReturnMimeType = firstResponseMime rs ∧
      a.params = st.params ∧
      a.pathParams = st.pathParams ∧
      a.headerParams = st.headerParams ∧
      a.queryParams = st.queryParams ∧
      a.hasParams = (!st.pathParams.isEmpty || !st.headerParams.isEmpty ||
        !st.queryParams.isEmpty) ∧
      a.operationMethod = ctx.method ∧
      a.methodName = camelCase ctx.operationId ∧
      a.tag = pascalCase ctx.rawTag := by
  unfold analyzeOperationTag at h
  cases hrs : op.responses with
  | none =>
    rw [hrs] at h
    dsimp only at h
    injection h with h
    exact Option.noConfusion h
  | some rs =>
    rw [hrs] at h
    dsimp only at h
    by_cases hlen : rs.length = 0
    · rw [if_pos hlen] at h
      injection h with h
      exact Option.noConfusion h
    · rw [if_neg hlen] at h
      simp only [Bind.bind, Except.bind] at h
      cases hb : requestBodyStep op (isMethodWithDataFor ctx.method) with
      | error e =>
        rw [hb] at h
        dsimp only at h
        exact Except.noConfusion h
      | ok bodySchema =>
        rw [hb] at h
        dsimp only at h
        cases hr1 : (match bodySchema with
          | Option.some bs => trackReferences ctx.safeIdent bs [] ctx.spec
          | Option.none => pure []) with
        | error e =>
          rw [hr1] at h
          dsimp only at h
          exact Except.noConfusion h
        | ok refs1 =>
          rw [hr1] at h
          dsimp only at h
          cases hr2 : (match (firstResponseJson rs).bind (fun m => m.schema) with
            | Option.some ss => trackReferences ctx.safeIdent ss refs1 ctx.spec
            | Option.none => pure refs1) with
          | error e =>
            rw [hr2] at h
            dsimp only at h
            exact Except.noConfusion h
          | ok refs2 =>
            rw [hr2] at h
            dsimp only at h
            cases hp : paramsLoop ctx (op.parameters.getD [])
                { params := [], pathParams := [], headerParams := [],
                  queryParams := [], paramSchemas := [],
                  referencedTypes := refs2 } with
            | error e =>
              rw [hp] at h
              dsimp only at h
              exact Except.noConfusion h
            | ok st =>
              rw [hp] at h
              dsimp only at h
              injection h with h
              injection h with h
              subst h
              exact ⟨rs, bodySchema, refs2, st, rfl, hlen, rfl, hp, rfl, rfl, rfl,
                rfl, rfl, rfl, rfl, rfl, rfl, rfl, rfl, rfl, rfl⟩

/-- C3. A request body is extracted, and a `data` parameter emitted for the
generated method, only when the HTTP method is `post`, `put` or `patch`:
for every other method the analyzed operation carries no body even when the
document declares a `requestBody`, and the generated method has no `data`
parameter. -/
theorem c3_body_only_for_mutating (op : Operation) (ctx : TagCtx)
    (a : AnalyzedOperationObject)
    (h : analyzeOperationTag op ctx = .ok (Option.some a)) :
    a.isMethodWithData = isMethodWithDataFor ctx.method ∧
    (isMethodWithDataFor ctx.method = false →
      a.requestBodySchema = Option.none ∧ a.hasRequestBody = false ∧
      "data" ∉ emittedParamNames a) ∧
    (a.hasRequestBody = true → isMethodWithDataFor ctx.method = true) := by
  obtain ⟨rs, bodySchema, refs2, st, _, _, hb, _, hbody, hhas, hwd, _⟩ :=
    analyzeOperationTag_fields op ctx a h
  have hnodata : isMethodWithDataFor ctx.method = false → bodySchema = Option.none := by
    intro hm
    rw [hm] at hb
    simp only [requestBodyStep, if_false, Pure.pure, Except.pure] at hb
    injection hb with hb
    exact hb.symm
  refine ⟨hwd, ?_, ?_⟩
  · intro hm
    have hbn := hnodata hm
    subst hbn
    refine ⟨hbody, by simp [hhas], ?_⟩
    intro hmem
    simp only [emittedParamNames, hbody] at hmem
    rcases List.mem_append.mp hmem with hmem | hmem
    · rcases List.mem_append.mp hmem with hmem | hmem
      · by_cases hp : a.hasParams = true
        · rw [hp] at hmem; simp at hmem
        · rw [Bool.not_eq_true] at hp; rw [hp] at hmem; simp at hmem
      · simp at hmem
    · simp at hmem
  · intro hhr
    by_contra hm
    rw [Bool.not_eq_true] at hm
    have hbn := hnodata hm
    subst hbn
    rw [hhas] at hhr
    simp at hhr

/-- Extractor for a successful, non-null analysis result. -/
def getOkSomeD (e : Except JsErr (Option AnalyzedOperationObject))
    (d : AnalyzedOperationObject) : AnalyzedOperationObject :=
  match e with
  | .ok (Option.some a) => a
  | _ => d

/-- A declared operation with every section absent. -/
def emptyOperation : Operation :=
  { operationId := Option.none, tags := Option.none, responses := Option.none,
    requestBody := Option.none, parameters := Option.none }

/-- A placeholder analyzed operation (used only as an extractor default). -/
def defaultAnalysis : AnalyzedOperationObject :=
  { rawTag := "", tag := "", operation := emptyOperation,
    operationId := "", operationPath := "", operationMethod := "",
    methodName := "", pathParams := [], headerParams := [], queryParams := [],
    params := [], hasPathParams := false, hasHeaderParams := false,
    hasQueryParams := false, hasParams := false, isMethodWithData := false,
    hasRequestBody := false, requestBodySchema := Option.none,
    successReturnSchema := Option.none, successReturnMimeType := Option.none,
    paramSchemas := [], referencedTypes := [] }

/-- A `{ type: integer }` schema with all other properties absent. -/
def intSchema : Schema :=
  .mk Option.none .none .none (Option.some "integer") Option.none Option.none false
    .nil Option.none .absent .none false false

/-- A `get` operation that nevertheless declares a `requestBody` (with a
JSON schema) next to a single `200` JSON response. -/
def c3op : Operation :=
  { emptyOperation with
    operationId := Option.some "getUser",
    responses := Option.some [("200", ResponseObject.mk (Option.some
      [("application/json", MediaTypeObject.mk (Option.some strSchema))]))],
    requestBody := Option.some (.body
      [("application/json", MediaTypeObject.mk (Option.some strSchema))]) }

/-- The tag-analysis context for `c3op` under method `get`. -/
def c3ctx : TagCtx :=
  { spec := emptySpec, path := "/user", operationId := "getUser",
    method := "get", rawTag := "Users", safeIdent := id, fuel := 5 }

/-- The analysis of `c3op`. -/
def c3a : AnalyzedOperationObject :=
  getOkSomeD (analyzeOperationTag c3op c3ctx) defaultAnalysis

theorem c3_body_only_for_mutating_witness :
    c3a.isMethodWithData = isMethodWithDataFor c3ctx.method ∧
    (isMethodWithDataFor c3ctx.method = false →
      c3a.requestBodySchema = Option.none ∧ c3a.hasRequestBody = false ∧
      "data" ∉ emittedParamNames c3a) ∧
    (c3a.hasRequestBody = true → isMethodWithDataFor c3ctx.method = true) :=
  c3_body_only_for_mutating c3op c3ctx c3a rfl

lemma analyzeOperationTag_skip (op : Operation) (ctx : TagCtx)
    (hskip : op.responses = Option.none ∨ op.responses = Option.some []) :
    analyzeOperationTag op ctx = .ok Option.none := by
  unfold analyzeOperationTag
  rcases hskip with h | h <;> rw [h]
  rfl

lemma analyzeTagsMap_none (op : Operation) (ctx : TagCtx)
    (hskip : op.responses = Option.none ∨ op.responses = Option.some []) :
    ∀ ts : List String,
      analyzeTagsMap op ctx ts = .ok (ts.map fun _ => Option.none)
  | [] => rfl
  | t :: ts => by
    rw [analyzeTagsMap]
    rw [analyzeOperationTag_skip op { ctx with rawTag := t } hskip]
    rw [analyzeTagsMap_none op ctx hskip ts]
    rfl

lemma analyzeOperation_skip (op : Operation) (ctx : TagCtx)
    (hskip : op.responses = Option.none ∨ op.responses = Option.some []) :
    analyzeOperation op ctx = .ok [] := by
  unfold analyzeOperation
  dsimp only
  rw [analyzeTagsMap_none op ctx hskip]
  simp [Bind.bind, Except.bind, Pure.pure, Except.pure, List.filterMap_map,
    Function.comp]

/-- C9. An operation whose `responses` section is absent or empty is skipped:
its analysis yields no analyzed record at all (the empty list, with no
exception), and the method loop over a path item simply prepends that empty
entry and continues with the remaining methods exactly as it would have
without the skipped operation. -/
theorem c9_skip_and_continue (op : Operation) (ctx : TagCtx) (pctx : PathCtx)
    (item : PathItem) (m : String) (ms : List String)
    (hskip : op.responses = Option.none ∨ op.responses = Option.some [])
    (hop : jsGet item.methods m = Option.some op) :
    analyzeOperation op ctx = .ok [] ∧
    analyzeMethodsLoop pctx item (m :: ms) =
      Except.map (fun rest => (m, ([] : List AnalyzedOperationObject)) :: rest)
        (analyzeMethodsLoop pctx item ms) := by
  refine ⟨analyzeOperation_skip op ctx hskip, ?_⟩
  rw [analyzeMethodsLoop, hop]
  dsimp only
  rw [analyzeOperation_skip op (mkTagCtx pctx op m) hskip]
  simp only [Bind.bind, Except.bind, Pure.pure, Except.pure]
  cases hrest : analyzeMethodsLoop pctx item ms <;> simp [Except.map]

/-- An operation declaring an empty `responses` section. -/
def c9skipOp : Operation :=
  { emptyOperation with
    operationId := Option.some "ghost",
    responses := Option.some [] }

/-- A path item with the skipped `get` operation next to a `post`
operation. -/
def c9item : PathItem := ⟨[("get", c9skipOp), ("post", c3op)]⟩

/-- A path-analysis context over the empty document. -/
def c9pctx : PathCtx :=
  { spec := emptySpec, path := "/user", safeIdent := id, fuel := 5 }

/-- A tag-analysis context for the skipped operation. -/
def c9ctx : TagCtx :=
  { spec := emptySpec, path := "/user", operationId := "ghost",
    method := "get", rawTag := "", safeIdent := id, fuel := 5 }

theorem c9_skip_and_continue_witness :
    analyzeOperation c9skipOp c9ctx = .ok [] ∧
    analyzeMethodsLoop c9pctx c9item ("get" :: ["post"]) =
      Except.map (fun rest => ("get", ([] : List AnalyzedOperationObject)) :: rest)
        (analyzeMethodsLoop c9pctx c9item ["post"]) :=
  c9_skip_and_continue c9skipOp c9ctx c9pctx c9item "get" ["post"]
    (Or.inr rfl) rfl

lemma jsEntries_singleton (x : String × ResponseObject) :
    jsEntries [x] = [x] := by
  unfold jsEntries
  cases h : isArrayIndexKey x.1 <;> simp [h, sortByVal, insertByVal]

set_option maxHeartbeats 800000 in
/-- C2. The chosen success schema is the content schema of the first
response entry in JavaScript key enumeration order — integer-like status
codes come first in ascending numeric order, not in document declaration
order — so for a `responses` section with a single entry (in particular one
whose only entry is status `404`) that entry is used as the success
schema. -/
theorem c2_amended (op : Operation) (ctx : TagCtx)
    (a : AnalyzedOperationObject) (rs : List (String × ResponseObject))
    (hrs : op.responses = Option.some rs)
    (h : analyzeOperationTag op ctx = .ok (Option.some a)) :
    a.successReturnSchema =
      (match (jsEntries rs).head? with
       | Option.some e =>
         match e.2.content with
         | Option.some cs => (jsGet cs "application/json").bind (·.schema)
         | Option.none => Option.none
       | Option.none => Option.none) ∧
    ∀ code r, rs = [(code, r)] →
      a.successReturnSchema =
        (match r.content with
         | Option.some cs => (jsGet cs "application/json").bind (·.schema)
         | Option.none => Option.none) := by
  obtain ⟨rs', bodySchema, refs2, st, hrs', _, _, _, _, _, _, hss, _⟩ :=
    analyzeOperationTag_fields op ctx a h
  rw [hrs] at hrs'
  injection hrs' with hrs'
  subst hrs'
  constructor
  · rw [hss]
    unfold firstResponseJson firstResponseObject
    cases he : (jsEntries rs).head? with
    | none => simp [he]
    | some e =>
      cases hc : e.2.content with
      | none => simp [he, hc]
      | some cs => simp [he, hc]
  · intro code r hrseq
    subst hrseq
    rw [hss]
    unfold firstResponseJson firstResponseObject
    rw [jsEntries_singleton]
    cases hc : r.content with
    | none => simp [hc]
    | some cs => simp [hc]

/-- A `responses` section whose only entry is status `404`, with a JSON
schema. -/
def c2rs404 : List (String × ResponseObject) :=
  [("404", ResponseObject.mk (Option.some
    [("application/json", MediaTypeObject.mk (Option.some intSchema))]))]

/-- An operation whose only response entry is status `404`. -/
def c2op404 : Operation :=
  { emptyOperation with
    operationId := Option.some "notFound",
    responses := Option.some c2rs404 }

/-- A tag-analysis context for the C2 operations. -/
def c2ctx : TagCtx :=
  { spec := emptySpec, path := "/nf", operationId := "notFound",
    method := "get", rawTag := "", safeIdent := id, fuel := 5 }

/-- The analysis of `c2op404`. -/
def c2a404 : AnalyzedOperationObject :=
  getOkSomeD (analyzeOperationTag c2op404 c2ctx) defaultAnalysis

theorem c2_amended_witness :
    c2a404.successReturnSchema =
      (match (jsEntries c2rs404).head? with
       | Option.some e =>
         match e.2.content with
         | Option.some cs => (jsGet cs "application/json").bind (·.schema)
         | Option.none => Option.none
       | Option.none => Option.none) ∧
    ∀ code r, c2rs404 = [(code, r)] →
      c2a404.successReturnSchema =
        (match r.content with
         | Option.some cs => (jsGet cs "application/json").bind (·.schema)
         | Option.none => Option.none) :=
  c2_amended c2op404 c2ctx c2a404 c2rs404 rfl rfl

/-- A `responses` section declaring `404` first and `200` second, with
distinguishable JSON schemas. -/
def c2rs2 : List (String × ResponseObject) :=
  [("404", ResponseObject.mk (Option.some
    [("application/json", MediaTypeObject.mk (Option.some intSchema))])),
   ("200", ResponseObject.mk (Option.some
    [("application/json", MediaTypeObject.mk (Option.some strSchema))]))]

/-- An operation declaring the `404` response before the `200` one. -/
def c2op2 : Operation :=
  { emptyOperation with
    operationId := Option.some "dual",
    responses := Option.some c2rs2 }

/-- The analysis of `c2op2`. -/
def c2a2 : AnalyzedOperationObject :=
  getOkSomeD (analyzeOperationTag c2op2 c2ctx) defaultAnalysis

theorem c2_counterexample :
    analyzeOperationTag c2op2 c2ctx = .ok (Option.some c2a2) ∧
    c2rs2.head? = Option.some ("404", ResponseObject.mk (Option.some
      [("application/json", MediaTypeObject.mk (Option.some intSchema))])) ∧
    c2a2.successReturnSchema = Option.some strSchema ∧
    Option.some strSchema ≠ Option.some intSchema := by
  refine ⟨rfl, rfl, rfl, ?_⟩
  intro h
  injection h with h
  have ht := congrArg Schema.typeA h
  simp [strSchema, intSchema, Schema.typeA] at ht

lemma paramsStep_lists (ctx : TagCtx) (p : Param) (st2 st3 : ParamsState)
    (h : (match p.schema with
      | Option.some psch =>
        match psch.refA with
        | Option.some r => do
          let refType ← retrieveRef ctx.fuel r ctx.spec
          let refs ← trackReferences ctx.safeIdent refType st2.referencedTypes ctx.spec
          pure { st2 with referencedTypes := refs,
                          paramSchemas := jsSet st2.paramSchemas p.name (Option.some psch) }
        | Option.none =>
          pure { st2 with paramSchemas := jsSet st2.paramSchemas p.name (Option.some psch) }
      | Option.none =>
        pure { st2 with paramSchemas := jsSet st2.paramSchemas p.name Option.none }) =
      .ok st3) :
    st3.params = st2.params ∧ st3.pathParams = st2.pathParams ∧
    st3.headerParams = st2.headerParams ∧ st3.queryParams = st2.queryParams := by
  cases hs : p.schema with
  | none =>
    rw [hs] at h
    dsimp only at h
    simp only [Pure.pure, Except.pure] at h
    injection h with h
    subst h
    exact ⟨rfl, rfl, rfl, rfl⟩
  | some psch =>
    rw [hs] at h
    dsimp only at h
    cases hr : psch.refA with
    | none =>
      rw [hr] at h
      dsimp only at h
      simp only [Pure.pure, Except.pure] at h
      injection h with h
      subst h
      exact ⟨rfl, rfl, rfl, rfl⟩
    | some r =>
      rw [hr] at h
      dsimp only at h
      simp only [Bind.bind, Except.bind] at h
      cases hrr : retrieveRef ctx.fuel r ctx.spec with
      | error e =>
        rw [hrr] at h
        dsimp only at h
        exact Except.noConfusion h
      | ok refType =>
        rw [hrr] at h
        dsimp only at h
        cases htk : trackReferences ctx.safeIdent refType st2.referencedTypes ctx.spec with
        | error e =>
          rw [htk] at h
          dsimp only at h
          exact Except.noConfusion h
        | ok refs =>
          rw [htk] at h
          dsimp only at h
          simp only [Pure.pure, Except.pure] at h
          injection h with h
          subst h
          exact ⟨rfl, rfl, rfl, rfl⟩

lemma paramsLoop_lists (ctx : TagCtx) :
    ∀ (ps : List Param) (st st' : ParamsState),
      paramsLoop ctx ps st = .ok st' →
      st'.params = st.params ++ ps.filter (fun p => jsTruthyS p.inLoc) ∧
      st'.pathParams = st.pathParams ++
        ps.filter (fun p => p.inLoc == Option.some "path") ∧
      st'.headerParams = st.headerParams ++
        ps.filter (fun p => p.inLoc == Option.some "header") ∧
      st'.queryParams = st.queryParams ++
        ps.filter (fun p => p.inLoc == Option.some "query") := by
  intro ps
  induction ps with
  | nil =>
    intro st st' h
    simp only [paramsLoop, Pure.pure, Except.pure] at h
    injection h with h
    subst h
    simp
  | cons p rest ih =>
    intro st st' h
    rw [paramsLoop] at h
    by_cases htr : jsTruthyS p.inLoc = true
    · rw [if_neg (by simp [htr])] at h
      simp only [Bind.bind, Except.bind] at h
      split at h
      · exact Except.noConfusion h
      · next st3 heq =>
        obtain ⟨e1, e2, e3, e4⟩ := paramsStep_lists ctx p _ st3 heq
        obtain ⟨h1, h2, h3, h4⟩ := ih st3 st' h
        by_cases hp : p.inLoc = Option.some "path" <;>
          by_cases hh : p.inLoc = Option.some "header" <;>
          by_cases hq : p.inLoc = Option.some "query" <;>
          simp_all
    · rw [Bool.not_eq_true] at htr
      rw [if_pos (by simp [htr])] at h
      obtain ⟨h1, h2, h3, h4⟩ := ih st st' h
      have hne : ∀ s : String, s ≠ "" → ¬ p.inLoc = Option.some s := by
        intro s hs hcontra
        rw [hcontra] at htr
        simp [jsTruthyS] at htr
        exact hs htr
      simp_all [hne "path" (by decide), hne "header" (by decide),
        hne "query" (by decide)]

/-- C8. Declared parameters with a truthy location are partitioned by
location into the three lists path / header / query; a parameter with any
other declared location (e.g. cookie) lands in none of the three — but it is
not ignored everywhere: every truthy-location parameter, including a cookie
one, is retained in the aggregated `params` list, from which the fields of
the generated callable's params argument are built. That argument exists
only when `hasParams` holds, and `hasParams` is computed from the three
location lists alone, so a cookie parameter reaches the callable only when
at least one path, header or query parameter coexists; an operation whose
only parameters are cookie ones gets no params argument at all. -/
theorem c8_amended (op : Operation) (ctx : TagCtx)
    (a : AnalyzedOperationObject)
    (h : analyzeOperationTag op ctx = .ok (Option.some a)) :
    a.params = (op.parameters.getD []).filter (fun p => jsTruthyS p.inLoc) ∧
    a.pathParams =
      (op.parameters.getD []).filter (fun p => p.inLoc == Option.some "path") ∧
    a.headerParams =
      (op.parameters.getD []).filter (fun p => p.inLoc == Option.some "header") ∧
    a.queryParams =
      (op.parameters.getD []).filter (fun p => p.inLoc == Option.some "query") ∧
    a.hasParams = (!a.pathParams.isEmpty || !a.headerParams.isEmpty ||
      !a.queryParams.isEmpty) ∧
    ("params" ∈ emittedParamNames a ↔ a.hasParams = true) ∧
    (∀ pctx : PathCtx,
      paramsArgFields pctx a = populateParamsObject pctx a a.params []) := by
  obtain ⟨rs, bodySchema, refs2, st, _, _, _, hploop, _, _, _, _, _, hparams,
    hpath, hheader, hquery, hhasp, _, _, _⟩ :=
    analyzeOperationTag_fields op ctx a h
  obtain ⟨h1, h2, h3, h4⟩ :=
    paramsLoop_lists ctx (op.parameters.getD []) _ st hploop
  refine ⟨?_, ?_, ?_, ?_, ?_, ?_, fun _ => rfl⟩
  · simp [hparams, h1]
  · simp [hpath, h2]
  · simp [hheader, h3]
  · simp [hquery, h4]
  · rw [hhasp, hpath, hheader, hquery]
  · unfold emittedParamNames
    cases hP : a.hasParams <;>
      cases hB : a.requestBodySchema.isSome <;> simp

/-- A required query parameter named `q` with no schema. -/
def qParam : Param :=
  { name := "q", inLoc := Option.some "query", required := Option.some true,
    schema := Option.none }

/-- A required cookie parameter named `c` with no schema. -/
def cParam : Param :=
  { name := "c", inLoc := Option.some "cookie", required := Option.some true,
    schema := Option.none }

/-- An operation declaring a query parameter and a cookie parameter. -/
def c8op : Operation :=
  { emptyOperation with
    operationId := Option.some "search",
    responses := Option.some [("200", ResponseObject.mk Option.none)],
    parameters := Option.some [qParam, cParam] }

/-- A tag-analysis context for `c8op`. -/
def c8ctx : TagCtx :=
  { spec := emptySpec, path := "/s", operationId := "search",
    method := "get", rawTag := "", safeIdent := id, fuel := 5 }

/-- The analysis of `c8op`. -/
def c8a : AnalyzedOperationObject :=
  getOkSomeD (analyzeOperationTag c8op c8ctx) defaultAnalysis

theorem c8_amended_witness :
    c8a.params = (c8op.parameters.getD []).filter (fun p => jsTruthyS p.inLoc) ∧
    c8a.pathParams =
      (c8op.parameters.getD []).filter (fun p => p.inLoc == Option.some "path") ∧
    c8a.headerParams =
      (c8op.parameters.getD []).filter (fun p => p.inLoc == Option.some "header") ∧
    c8a.queryParams =
      (c8op.parameters.getD []).filter (fun p => p.inLoc == Option.some "query") ∧
    c8a.hasParams = (!c8a.pathParams.isEmpty || !c8a.headerParams.isEmpty ||
      !c8a.queryParams.isEmpty) ∧
    ("params" ∈ emittedParamNames c8a ↔ c8a.hasParams = true) ∧
    (∀ pctx : PathCtx,
      paramsArgFields pctx c8a = populateParamsObject pctx c8a c8a.params []) :=
  c8_amended c8op c8ctx c8a rfl

/-- A path-analysis context for the generated callable of `c8op`. -/
def c8pctx : PathCtx :=
  { spec := emptySpec, path := "/s", safeIdent := id, fuel := 5 }

theorem c8_counterexample :
    cParam.inLoc = Option.some "cookie" ∧
    c8a.params = [qParam, cParam] ∧
    c8a.pathParams = [] ∧ c8a.headerParams = [] ∧
    c8a.queryParams = [qParam] ∧
    (paramsArgFields c8pctx c8a).map (List.map Prod.fst) = .ok ["q", "c"] :=
  ⟨rfl, rfl, rfl, rfl, rfl, rfl⟩

end Oatyp

